import Mathlib

/-!
Verification development for the stoneforge orchestrator core.

The TypeScript sources are embedded shallowly:
* `packages/smithy/src/git/merge.ts` is modelled over an abstract git
  environment (`GitEnv`, one field per external `git` command site, giving
  that command's outcome).  Each source function is translated into a
  result function mirroring the source control flow (a thrown exception
  becomes `Except.error`), plus a trace function listing the git commands
  the same control flow executes, with their working directory and whether
  they went through the `execGitSafe` wrapper.
* `packages/smithy/src/server/routes/diagnostics.ts` (`collectStuckTasks`)
  is modelled over a task list and an active-session oracle.
* The rate-limit tracker, the session-route rate-limit guard and the
  dispatch-daemon startup latch are modelled from the specification, since
  only their tests ship in the repository snapshot.
-/

namespace Stoneforge

/-!  String helpers.  The JavaScript string operations are modelled by
structurally recursive functions over `String.data`, so that concrete
witnesses reduce inside the kernel. -/

/-- Whether `pat` occurs as a contiguous sublist of `l`. -/
def charListContains (pat : List Char) : List Char → Bool
  | [] => pat.isPrefixOf ([] : List Char)
  | c :: rest => pat.isPrefixOf (c :: rest) || charListContains pat rest

/-- Substring containment, modelling JavaScript `String.includes`. -/
def containsSubstr (s pat : String) : Bool :=
  charListContains pat.data s.data

/-- The characters after the first occurrence of `pat`, if any. -/
def charListAfter (pat : List Char) : List Char → Option (List Char)
  | [] => if pat.isPrefixOf ([] : List Char) then some [] else none
  | c :: rest =>
    if pat.isPrefixOf (c :: rest) then some ((c :: rest).drop pat.length)
    else charListAfter pat rest

/-- Everything after the first occurrence of `pat` in `s`, or `none` when
`pat` does not occur.  Models a `/pat(.+)/` style capture on one line. -/
def afterSubstr (s pat : String) : Option String :=
  (charListAfter pat.data s.data).map String.mk

/-- Split a character list at a separator character (the pieces, without
the separator; one empty piece between adjacent separators). -/
def splitChar (sep : Char) : List Char → List (List Char)
  | [] => [[]]
  | c :: rest =>
    let r := splitChar sep rest
    if c == sep then [] :: r
    else
      match r with
      | [] => [[c]]
      | h :: t => (c :: h) :: t

/-- The lines of a string, modelling `split(10 as newline)`. -/
def linesOf (s : String) : List String :=
  (splitChar (Char.ofNat 10) s.data).map String.mk

/-- Remove leading and trailing whitespace, modelling `String.trim`. -/
def trimString (s : String) : String :=
  String.mk (((s.data.dropWhile Char.isWhitespace).reverse.dropWhile Char.isWhitespace).reverse)

/-- Outcome of one external `git` invocation: Node's `execAsync` either
resolves with captured stdout/stderr or rejects with an error object that
carries `stdout`, `stderr` and `message`. -/
inductive ExecRes where
  | ok (stdout stderr : String)
  | err (stdout stderr message : String)
deriving Repr, DecidableEq

/-- The data of a rejected `execAsync` promise. -/
structure ExecErr where
  stdout : String
  stderr : String
  message : String
deriving Repr, DecidableEq

def ExecRes.isOk : ExecRes → Bool
  | .ok _ _ => true
  | .err _ _ _ => false

/-- The `stdout` visible to a `.catch((e) => e)` handler: the resolved
stdout on success, the error object's `stdout` on failure. -/
def ExecRes.stdoutOf : ExecRes → String
  | .ok so _ => so
  | .err so _ _ => so

def ExecRes.toExcept : ExecRes → Except ExecErr (String × String)
  | .ok so se => .ok (so, se)
  | .err so se m => .error ⟨so, se, m⟩

/-- The rejection data of a failed command (meaningful when `isOk` is
false; junk otherwise, and never used in that case). -/
def ExecRes.errOf : ExecRes → ExecErr
  | .ok so se => ⟨so, se, ""⟩
  | .err so se m => ⟨so, se, m⟩

/-- Kind of git command executed, named after the command text in
`git/merge.ts`. -/
inductive CmdKind where
  | remoteGetUrl
  | symbolicRef
  | revParseVerify
  | fetch
  | mergeBase
  | mergeTree
  | worktreeAdd
  | worktreeRemove
  | merge
  | commit
  | revParse
  | push
  | reset
  | mergeAbort
  | branchForce
deriving Repr, DecidableEq

/-- Which part of `mergeBranch` issued a command (steps 1-8 of the
protocol documented at the top of `git/merge.ts`). -/
inductive Phase where
  | detect
  | fetchPhase
  | preflightPhase
  | worktreePrep
  | mergePhase
  | cleanupPhase
  | syncPhase
deriving Repr, DecidableEq

/-- One executed git command: its kind, working directory, whether it went
through the `execGitSafe` wrapper, and the protocol phase that issued it. -/
structure Cmd where
  kind : CmdKind
  cwd : String
  viaSafe : Bool
  phase : Phase
deriving Repr, DecidableEq

/-- Abstract git repository environment: the outcome of each external
command site in `git/merge.ts`, keyed by call site, plus `Date.now()`. -/
structure GitEnv where
  remoteGetUrlOrigin : ExecRes
  symbolicRefOriginHead : ExecRes
  revParseOriginMain : ExecRes
  revParseOriginMaster : ExecRes
  revParseLocalMain : ExecRes
  revParseLocalMaster : ExecRes
  fetchOrigin : ExecRes
  mergeBase : ExecRes
  mergeTree : ExecRes
  leftoverWorktreeExists : Bool
  worktreeRemovePre : ExecRes
  worktreeAdd : ExecRes
  mergeSquash : ExecRes
  commitCmd : ExecRes
  revParseHead : ExecRes
  mergeNoFf : ExecRes
  pushCmd : ExecRes
  resetHard : ExecRes
  mergeAbortCmd : ExecRes
  worktreeRemoveFinal : ExecRes
  symbolicRefShortHead : ExecRes
  mergeFfOnlyOrigin : ExecRes
  fetchTargetColonTarget : ExecRes
  mergeFfOnlyCommit : ExecRes
  branchForce : ExecRes
  nowMs : Nat
deriving Repr, DecidableEq

/-- `hasRemote` from `git/merge.ts:98`: `git remote get-url origin` exits
0 exactly when the remote exists (the try/catch converts the exit status
to a boolean). -/
def hasRemote (env : GitEnv) : Bool :=
  env.remoteGetUrlOrigin.isOk

/-- The `stdout.trim().match(/refs\x2fremotes\x2forigin\x2f(.+)/)` step of
`detectTargetBranch`.  `git symbolic-ref` prints exactly one ref, so the
search is modelled as anchored at the start of the trimmed output. -/
def originHeadMatch (stdout : String) : Option String :=
  let t := trimString stdout
  if "refs/remotes/origin/".data.isPrefixOf t.data
      && t.length > "refs/remotes/origin/".length then
    some (String.mk (t.data.drop "refs/remotes/origin/".length))
  else
    none

/-- The local `main` / `master` probes of `detectTargetBranch`
(`merge.ts:158`) and the final literal `"main"` fallback. -/
def detectLocalFallback (env : GitEnv) : String :=
  if env.revParseLocalMain.isOk then "main"
  else if env.revParseLocalMaster.isOk then "master"
  else "main"

/-- The `origin/main` / `origin/master` probes of `detectTargetBranch`
(`merge.ts:135`), falling back to local detection when both fail. -/
def detectRemoteFallback (env : GitEnv) : String :=
  if env.revParseOriginMain.isOk then "main"
  else if env.revParseOriginMaster.isOk then "master"
  else detectLocalFallback env

/-- `detectTargetBranch` from `git/merge.ts:118`: origin/HEAD symref,
then `origin/main`, then `origin/master` (all only when the `origin`
remote exists), then local `main`, then local `master`, then the literal
`"main"`. -/
def detectTargetBranch (env : GitEnv) : String :=
  if hasRemote env then
    match env.symbolicRefOriginHead with
    | .ok so _ =>
      match originHeadMatch so with
      | some b => b
      | none => detectRemoteFallback env
    | .err _ _ _ => detectRemoteFallback env
  else
    detectLocalFallback env

/-- Commands run by the local-branch probes: local `main` always probed;
local `master` probed only when `main` is absent. -/
def detectLocalFallbackTrace (env : GitEnv) (root : String) : List Cmd :=
  if env.revParseLocalMain.isOk then
    [⟨.revParseVerify, root, false, .detect⟩]
  else
    [⟨.revParseVerify, root, false, .detect⟩, ⟨.revParseVerify, root, false, .detect⟩]

/-- Commands run by the remote-branch probes of `detectTargetBranch`. -/
def detectRemoteFallbackTrace (env : GitEnv) (root : String) : List Cmd :=
  if env.revParseOriginMain.isOk then
    [⟨.revParseVerify, root, false, .detect⟩]
  else if env.revParseOriginMaster.isOk then
    [⟨.revParseVerify, root, false, .detect⟩, ⟨.revParseVerify, root, false, .detect⟩]
  else
    [⟨.revParseVerify, root, false, .detect⟩, ⟨.revParseVerify, root, false, .detect⟩]
      ++ detectLocalFallbackTrace env root

/-- Commands run by `detectTargetBranch`: the `hasRemote` probe, then the
symref lookup and remote/local probes along the taken path, all plain
reads in the workspace root. -/
def detectTargetBranchTrace (env : GitEnv) (root : String) : List Cmd :=
  [⟨.remoteGetUrl, root, false, .detect⟩]
    ++ (if hasRemote env then
          [⟨.symbolicRef, root, false, .detect⟩]
            ++ (match env.symbolicRefOriginHead with
                | .ok so _ =>
                  match originHeadMatch so with
                  | some _ => []
                  | none => detectRemoteFallbackTrace env root
                | .err _ _ _ => detectRemoteFallbackTrace env root)
        else detectLocalFallbackTrace env root)

/-- Spec-side rendering of claim C2: the seven-step fallback ladder
"configured base branch → remote symbolic-ref → origin/main existence →
origin/master existence → local main → local master → literal main",
each step producing `some branch` when it succeeds.  The remote probes
require the `origin` remote to exist, as a remote ref can only be
consulted through a configured remote. -/
def specTargetBranchSteps (configuredBase : Option String) (env : GitEnv) :
    List (Option String) :=
  [configuredBase,
   if env.remoteGetUrlOrigin.isOk then
     match env.symbolicRefOriginHead with
     | .ok so _ => originHeadMatch so
     | .err _ _ _ => none
   else none,
   if env.remoteGetUrlOrigin.isOk && env.revParseOriginMain.isOk then some "main" else none,
   if env.remoteGetUrlOrigin.isOk && env.revParseOriginMaster.isOk then some "master" else none,
   if env.revParseLocalMain.isOk then some "main" else none,
   if env.revParseLocalMaster.isOk then some "master" else none,
   some "main"]

/-- First succeeding step of a fallback ladder. -/
def firstSome : List (Option String) → Option String
  | [] => none
  | some x :: _ => some x
  | none :: rest => firstSome rest

/-- Spec-side target branch resolution per claim C2: the first step of the
ladder that succeeds. -/
def specDetectTargetBranch (configuredBase : Option String) (env : GitEnv) : String :=
  (firstSome (specTargetBranchSteps configuredBase env)).getD "main"

/-- Target-branch resolution as performed by `mergeBranch`
(`merge.ts:195`): the configured branch when supplied, otherwise the
canonical `detectTargetBranch`. -/
def resolveTargetBranch (configuredBase : Option String) (env : GitEnv) : String :=
  match configuredBase with
  | some t => t
  | none => detectTargetBranch env

/-- Merge strategy of `MergeBranchOptions`: `squash` (default) or `merge`
(`--no-ff`). -/
inductive MergeStrategy where
  | squash
  | merge
deriving Repr, DecidableEq

/-- `MergeBranchOptions` from `git/merge.ts` (optional fields are `Option`,
mirroring the defaulting in the destructuring at `merge.ts:182`). -/
structure MergeBranchOptions where
  workspaceRoot : String
  sourceBranch : String
  targetBranch : Option String
  mergeStrategy : Option MergeStrategy
  autoPush : Option Bool
  commitMessage : Option String
  preflight : Option Bool
  syncLocal : Option Bool
  localOnly : Option Bool
deriving Repr, DecidableEq

/-- `MergeBranchResult` from `git/merge.ts`. -/
structure MergeBranchResult where
  success : Bool
  commitHash : Option String
  hasConflict : Bool
  error : Option String
  conflictFiles : Option (List String)
deriving Repr, DecidableEq

/-- Result half of `execGitSafe` (`merge.ts:79`): throws when the resolved
worktree path equals the resolved workspace root, otherwise the command's
own outcome.  Paths are modelled as already resolved, so `path.resolve`
is the identity. -/
def execGitSafeResult (outcome : ExecRes) (command : String)
    (worktreePath workspaceRoot : String) : Except ExecErr (String × String) :=
  if worktreePath = workspaceRoot then
    .error ⟨"", "",
      "SAFETY: Refusing to run \"git " ++ command ++ "\" in main repo. Use a worktree."⟩
  else
    outcome.toExcept

/-- Trace half of `execGitSafe`: a refusal executes nothing, otherwise
the guarded command runs in the worktree via the wrapper. -/
def execGitSafeTrace (worktreePath workspaceRoot : String) (kind : CmdKind)
    (phase : Phase) : List Cmd :=
  if worktreePath = workspaceRoot then []
  else [⟨kind, worktreePath, true, phase⟩]

/-- `execGitSafe` from `git/merge.ts:79`: commands executed and outcome. -/
def execGitSafe (outcome : ExecRes) (command : String)
    (worktreePath workspaceRoot : String) (kind : CmdKind) (phase : Phase) :
    List Cmd × Except ExecErr (String × String) :=
  (execGitSafeTrace worktreePath workspaceRoot kind phase,
    execGitSafeResult outcome command worktreePath workspaceRoot)

/-- `sourceBranch.replace(/[^a-zA-Z0-9-]/g, \x27-\x27)` from `merge.ts:237`. -/
def safeBranchName (sourceBranch : String) : String :=
  String.mk (sourceBranch.data.map (fun c => if c.isAlphanum || c == '-' then c else '-'))

/-- The temp worktree directory `merge.ts:238`:
`<root>/.stoneforge/.worktrees/_merge-<safeName>-<Date.now()>`. -/
def mergeDirOf (env : GitEnv) (opts : MergeBranchOptions) : String :=
  opts.workspaceRoot ++ "/.stoneforge/.worktrees/_merge-"
    ++ safeBranchName opts.sourceBranch ++ "-" ++ toString env.nowMs

/-- Conflict-file parse of the preflight dry run (`merge.ts:223`):
all `/\x2b\x2b\x2b b\x2f(.+)/g` captures; `undefined` when empty. -/
def preflightConflictFiles (env : GitEnv) : Option (List String) :=
  let files := (linesOf env.mergeTree.stdoutOf).filterMap
    (fun l => afterSubstr l "+++ b/")
  if files.length > 0 then some files else none

/-- Conflict-file parse of a failed worktree merge (`merge.ts:302`):
lines matching `CONFLICT (...): Merge conflict in <file>`, from which the
file name is captured; `undefined` when no line matches. -/
def mergeConflictFiles (output : String) : Option (List String) :=
  let files := (linesOf output).filterMap (fun l =>
    if containsSubstr l "CONFLICT (" && containsSubstr l "): Merge conflict in " then
      afterSubstr l "Merge conflict in "
    else none)
  if files.length > 0 then some files else none

/-- The combined `stdout + stderr + message` a catch block inspects
(`merge.ts:288`). -/
def combinedOutput (e : ExecErr) : String :=
  e.stdout ++ e.stderr ++ e.message

/-- Whether the combined output of a failed merge carries a conflict
signal (`merge.ts:290`). -/
def conflictSignal (output : String) : Bool :=
  containsSubstr output "CONFLICT" || containsSubstr output "Automatic merge failed"

/-- Result of the `catch` block of `mergeBranch` (`merge.ts:286`): a
structured conflict result on a conflict signal (the abort's own outcome
is swallowed), otherwise `success:false` with the combined output as the
error (`\x7c\x7c \x27Merge failed\x27` when empty). -/
def mergeErrorResult (output : String) : MergeBranchResult :=
  if conflictSignal output then
    ⟨false, none, true, some "Merge conflict detected", mergeConflictFiles output⟩
  else
    ⟨false, none, false, some (if output = "" then "Merge failed" else output), none⟩

/-- Commands run by the `catch` block: the abort (`reset --hard` for
squash, `merge --abort` for merge) on a conflict signal, both through the
wrapper. -/
def mergeErrorTrace (strategy : MergeStrategy) (mergeDir workspaceRoot : String)
    (output : String) : List Cmd :=
  if conflictSignal output then
    match strategy with
    | .squash => execGitSafeTrace mergeDir workspaceRoot .reset .mergePhase
    | .merge => execGitSafeTrace mergeDir workspaceRoot .mergeAbort .mergePhase
  else []

/-- Result of the `try` block of `mergeBranch` (`merge.ts:258`): squash
merge + commit + `rev-parse HEAD` (or `--no-ff` merge + `rev-parse HEAD`),
every command through `execGitSafe`; any failure is routed through the
catch block.  The push is best-effort and cannot change the result.  The
quote escaping of the `-m` argument is immaterial here and not modelled. -/
def mergeExecResult (env : GitEnv) (strategy : MergeStrategy)
    (message sourceBranch : String) (mergeDir workspaceRoot : String) :
    MergeBranchResult :=
  match strategy with
  | .squash =>
    match execGitSafeResult env.mergeSquash ("merge --squash " ++ sourceBranch)
        mergeDir workspaceRoot with
    | .error e => mergeErrorResult (combinedOutput e)
    | .ok _ =>
      match execGitSafeResult env.commitCmd ("commit -m " ++ message)
          mergeDir workspaceRoot with
      | .error e => mergeErrorResult (combinedOutput e)
      | .ok _ =>
        match execGitSafeResult env.revParseHead "rev-parse HEAD"
            mergeDir workspaceRoot with
        | .error e => mergeErrorResult (combinedOutput e)
        | .ok out => ⟨true, some (trimString out.1), false, none, none⟩
  | .merge =>
    match execGitSafeResult env.mergeNoFf
        ("merge --no-ff -m " ++ message ++ " " ++ sourceBranch) mergeDir workspaceRoot with
    | .error e => mergeErrorResult (combinedOutput e)
    | .ok _ =>
      match execGitSafeResult env.revParseHead "rev-parse HEAD"
          mergeDir workspaceRoot with
      | .error e => mergeErrorResult (combinedOutput e)
      | .ok out => ⟨true, some (trimString out.1), false, none, none⟩

/-- The best-effort push command (`merge.ts:276`, skipped when `autoPush`
is off or in local-only mode). -/
def mergeExecPushTrace (autoPush localOnly : Bool) (mergeDir workspaceRoot : String) :
    List Cmd :=
  if autoPush && !localOnly then execGitSafeTrace mergeDir workspaceRoot .push .mergePhase
  else []

/-- Commands run by the `try`/`catch` of `mergeBranch`: the merge steps
through the wrapper, the best-effort push, and the conflict abort. -/
def mergeExecTrace (env : GitEnv) (strategy : MergeStrategy)
    (message sourceBranch : String) (autoPush localOnly : Bool)
    (mergeDir workspaceRoot : String) : List Cmd :=
  let pushT : List Cmd := mergeExecPushTrace autoPush localOnly mergeDir workspaceRoot
  match strategy with
  | .squash =>
    match execGitSafeResult env.mergeSquash ("merge --squash " ++ sourceBranch)
        mergeDir workspaceRoot with
    | .error e =>
      execGitSafeTrace mergeDir workspaceRoot .merge .mergePhase
        ++ mergeErrorTrace strategy mergeDir workspaceRoot (combinedOutput e)
    | .ok _ =>
      match execGitSafeResult env.commitCmd ("commit -m " ++ message)
          mergeDir workspaceRoot with
      | .error e =>
        execGitSafeTrace mergeDir workspaceRoot .merge .mergePhase
          ++ execGitSafeTrace mergeDir workspaceRoot .commit .mergePhase
          ++ mergeErrorTrace strategy mergeDir workspaceRoot (combinedOutput e)
      | .ok _ =>
        match execGitSafeResult env.revParseHead "rev-parse HEAD"
            mergeDir workspaceRoot with
        | .error e =>
          execGitSafeTrace mergeDir workspaceRoot .merge .mergePhase
            ++ execGitSafeTrace mergeDir workspaceRoot .commit .mergePhase
            ++ execGitSafeTrace mergeDir workspaceRoot .revParse .mergePhase
            ++ mergeErrorTrace strategy mergeDir workspaceRoot (combinedOutput e)
        | .ok _ =>
          execGitSafeTrace mergeDir workspaceRoot .merge .mergePhase
            ++ execGitSafeTrace mergeDir workspaceRoot .commit .mergePhase
            ++ execGitSafeTrace mergeDir workspaceRoot .revParse .mergePhase
            ++ pushT
  | .merge =>
    match execGitSafeResult env.mergeNoFf
        ("merge --no-ff -m " ++ message ++ " " ++ sourceBranch) mergeDir workspaceRoot with
    | .error e =>
      execGitSafeTrace mergeDir workspaceRoot .merge .mergePhase
        ++ mergeErrorTrace strategy mergeDir workspaceRoot (combinedOutput e)
    | .ok _ =>
      match execGitSafeResult env.revParseHead "rev-parse HEAD"
          mergeDir workspaceRoot with
      | .error e =>
        execGitSafeTrace mergeDir workspaceRoot .merge .mergePhase
          ++ execGitSafeTrace mergeDir workspaceRoot .revParse .mergePhase
          ++ mergeErrorTrace strategy mergeDir workspaceRoot (combinedOutput e)
      | .ok _ =>
        execGitSafeTrace mergeDir workspaceRoot .merge .mergePhase
          ++ execGitSafeTrace mergeDir workspaceRoot .revParse .mergePhase
          ++ pushT

/-- `syncLocalBranch` from `merge.ts:357` (remote mode): read the current
branch via `git symbolic-ref --short HEAD`; on detached HEAD skip with a
warning; when on the target branch fast-forward in place with
`git merge --ff-only origin\x2f<target>`; otherwise update only the ref via
`git fetch origin <target>:<target>`.  All failures are swallowed, so only
the command trace is produced. -/
def syncLocalBranch (env : GitEnv) (workspaceRoot targetBranch : String) : List Cmd :=
  let c0 : Cmd := ⟨.symbolicRef, workspaceRoot, false, .syncPhase⟩
  match env.symbolicRefShortHead with
  | .err _ _ _ => [c0]
  | .ok so _ =>
    if trimString so = targetBranch then
      [c0, ⟨.merge, workspaceRoot, false, .syncPhase⟩]
    else
      [c0, ⟨.fetch, workspaceRoot, false, .syncPhase⟩]

/-- `syncLocalBranchFromCommit` from `merge.ts:404` (local-only mode):
when on the target branch, `git merge --ff-only <hash>` in place;
otherwise (including detached HEAD) force-update the ref with
`git branch -f <target> <hash>`.  Failures are swallowed. -/
def syncLocalBranchFromCommit (env : GitEnv)
    (workspaceRoot targetBranch _commitHash : String) : List Cmd :=
  let c0 : Cmd := ⟨.symbolicRef, workspaceRoot, false, .syncPhase⟩
  match env.symbolicRefShortHead with
  | .ok so _ =>
    if trimString so = targetBranch then
      [c0, ⟨.merge, workspaceRoot, false, .syncPhase⟩]
    else
      [c0, ⟨.branchForce, workspaceRoot, false, .syncPhase⟩]
  | .err _ _ _ => [c0, ⟨.branchForce, workspaceRoot, false, .syncPhase⟩]

/-- Effective local-only mode (`merge.ts:193`): the explicit option, else
the absence of an `origin` remote. -/
def mbLocalOnly (env : GitEnv) (opts : MergeBranchOptions) : Bool :=
  opts.localOnly.getD (!hasRemote env)

/-- Effective merge strategy (default `squash`). -/
def mbStrategy (opts : MergeBranchOptions) : MergeStrategy :=
  opts.mergeStrategy.getD .squash

/-- Effective `autoPush` (default true). -/
def mbAutoPush (opts : MergeBranchOptions) : Bool :=
  opts.autoPush.getD true

/-- Effective `preflight` (default true). -/
def mbPreflightOn (opts : MergeBranchOptions) : Bool :=
  opts.preflight.getD true

/-- Effective `syncLocal` (default true). -/
def mbSyncLocal (opts : MergeBranchOptions) : Bool :=
  opts.syncLocal.getD true

/-- Effective target branch (`merge.ts:195`). -/
def mbTargetBranch (env : GitEnv) (opts : MergeBranchOptions) : String :=
  opts.targetBranch.getD (detectTargetBranch env)

/-- The commit message (`merge.ts:198`): the supplied one, else generated
from the strategy.  `q` is the ASCII apostrophe of the source literal. -/
def mbMessage (env : GitEnv) (opts : MergeBranchOptions) : String :=
  let q := String.singleton (Char.ofNat 39)
  opts.commitMessage.getD
    (match mbStrategy opts with
     | .squash =>
       "Squash merge " ++ opts.sourceBranch ++ " into " ++ mbTargetBranch env opts
     | .merge => "Merge branch " ++ q ++ opts.sourceBranch ++ q)

/-- Path condition: the preflight dry run runs and detects conflict
markers, triggering the cheap rejection (`merge.ts:221`).  The dry run is
only reached when `git merge-base` succeeded; the `merge-tree` outcome
itself is caught, its stdout inspected either way. -/
def mbPreflightRejects (env : GitEnv) (opts : MergeBranchOptions) : Bool :=
  mbPreflightOn opts && env.mergeBase.isOk
    && containsSubstr env.mergeTree.stdoutOf "<<<<<<<"

/-- Path condition: `git fetch origin` runs (non-local-only) and rejects
(`merge.ts:205`, before the try/finally). -/
def mbFetchThrows (env : GitEnv) (opts : MergeBranchOptions) : Bool :=
  !mbLocalOnly env opts && !env.fetchOrigin.isOk

/-- Path condition: the leftover-worktree cleanup runs and rejects
(`merge.ts:243`, before the try/finally). -/
def mbCleanupThrows (env : GitEnv) (opts : MergeBranchOptions) : Bool :=
  !mbFetchThrows env opts && !mbPreflightRejects env opts
    && env.leftoverWorktreeExists && !env.worktreeRemovePre.isOk

/-- Path condition: `git worktree add` runs and rejects (`merge.ts:252`,
before the try/finally). -/
def mbAddThrows (env : GitEnv) (opts : MergeBranchOptions) : Bool :=
  !mbFetchThrows env opts && !mbPreflightRejects env opts
    && (!env.leftoverWorktreeExists || env.worktreeRemovePre.isOk)
    && !env.worktreeAdd.isOk

/-- The early-return result of a preflight conflict rejection
(`merge.ts:224`). -/
def preflightRejectResult (env : GitEnv) : MergeBranchResult :=
  ⟨false, none, true, some "Pre-flight: merge conflicts detected",
    preflightConflictFiles env⟩

/-- Result of `mergeBranch` from `git/merge.ts:181`.  The early exits
mirror the source order: a failed fetch, leftover cleanup or worktree add
propagates as a throw (`Except.error`); a preflight conflict returns the
cheap rejection; otherwise the guarded worktree merge result is returned
(the `finally` removal and the best-effort sync cannot change it). -/
def mergeBranchResult (env : GitEnv) (opts : MergeBranchOptions) :
    Except ExecErr MergeBranchResult :=
  if mbFetchThrows env opts then .error env.fetchOrigin.errOf
  else if mbPreflightRejects env opts then .ok (preflightRejectResult env)
  else if mbCleanupThrows env opts then .error env.worktreeRemovePre.errOf
  else if mbAddThrows env opts then .error env.worktreeAdd.errOf
  else .ok (mergeExecResult env (mbStrategy opts) (mbMessage env opts)
    opts.sourceBranch (mergeDirOf env opts) opts.workspaceRoot)

/-- Commands executed before the worktree phase: local-only detection,
target detection, fetch, and the preflight probes actually reached. -/
def mergeBranchPreTrace (env : GitEnv) (opts : MergeBranchOptions) : List Cmd :=
  let root := opts.workspaceRoot
  (match opts.localOnly with
   | some _ => []
   | none => [⟨.remoteGetUrl, root, false, .detect⟩])
    ++ (match opts.targetBranch with
        | some _ => []
        | none => detectTargetBranchTrace env root)
    ++ (if !mbLocalOnly env opts then [⟨.fetch, root, false, .fetchPhase⟩] else [])

/-- Commands executed by the preflight block when it is reached: the
merge-base probe, and the dry run only when merge-base succeeded. -/
def mergeBranchPreflightTrace (env : GitEnv) (opts : MergeBranchOptions) : List Cmd :=
  let root := opts.workspaceRoot
  if mbPreflightOn opts then
    if env.mergeBase.isOk then
      [⟨.mergeBase, root, false, .preflightPhase⟩, ⟨.mergeTree, root, false, .preflightPhase⟩]
    else
      [⟨.mergeBase, root, false, .preflightPhase⟩]
  else []

/-- The post-merge local sync commands (`merge.ts:335`): only on success
with `syncLocal`; local-only mode syncs from the commit, remote mode syncs
from origin only when `autoPush` ran. -/
def mergeBranchSyncTrace (env : GitEnv) (opts : MergeBranchOptions)
    (r : MergeBranchResult) : List Cmd :=
  if r.success && mbSyncLocal opts then
    if mbLocalOnly env opts then
      syncLocalBranchFromCommit env opts.workspaceRoot (mbTargetBranch env opts)
        (r.commitHash.getD "")
    else if mbAutoPush opts then
      syncLocalBranch env opts.workspaceRoot (mbTargetBranch env opts)
    else []
  else []

/-- The leftover-worktree cleanup command (`merge.ts:243`), run only when
a stale merge directory exists. -/
def mergeBranchCleanupTrace (env : GitEnv) (opts : MergeBranchOptions) : List Cmd :=
  if env.leftoverWorktreeExists then
    [⟨.worktreeRemove, opts.workspaceRoot, false, .worktreePrep⟩]
  else []

/-- Commands executed by `mergeBranch`, truncated at the throw point when
a pre-worktree step throws: detection, fetch, preflight, leftover
cleanup, worktree add, the guarded merge phase, the `finally` worktree
removal, and the local sync. -/
def mergeBranchTrace (env : GitEnv) (opts : MergeBranchOptions) : List Cmd :=
  if mbFetchThrows env opts then mergeBranchPreTrace env opts
  else if mbPreflightRejects env opts then
    mergeBranchPreTrace env opts ++ mergeBranchPreflightTrace env opts
  else if mbCleanupThrows env opts then
    mergeBranchPreTrace env opts ++ mergeBranchPreflightTrace env opts
      ++ mergeBranchCleanupTrace env opts
  else if mbAddThrows env opts then
    mergeBranchPreTrace env opts ++ mergeBranchPreflightTrace env opts
      ++ mergeBranchCleanupTrace env opts
      ++ [⟨.worktreeAdd, opts.workspaceRoot, false, .worktreePrep⟩]
  else
    mergeBranchPreTrace env opts ++ mergeBranchPreflightTrace env opts
      ++ mergeBranchCleanupTrace env opts
      ++ [⟨.worktreeAdd, opts.workspaceRoot, false, .worktreePrep⟩]
      ++ mergeExecTrace env (mbStrategy opts) (mbMessage env opts)
        opts.sourceBranch (mbAutoPush opts) (mbLocalOnly env opts)
        (mergeDirOf env opts) opts.workspaceRoot
      ++ [⟨.worktreeRemove, opts.workspaceRoot, false, .cleanupPhase⟩]
      ++ mergeBranchSyncTrace env opts
        (mergeExecResult env (mbStrategy opts) (mbMessage env opts)
          opts.sourceBranch (mergeDirOf env opts) opts.workspaceRoot)

/-- `mergeBranch` from `git/merge.ts:181`: the commands it executes and
the result it returns (or the error it throws). -/
def mergeBranch (env : GitEnv) (opts : MergeBranchOptions) :
    List Cmd × Except ExecErr MergeBranchResult :=
  (mergeBranchTrace env opts, mergeBranchResult env opts)

/-- Git commands that mutate repository state among the kinds claim C1
enumerates for the merge phase (rev-parse is enumerated there but is a
pure read, so it is not counted as mutating). -/
def mutatingKind : CmdKind → Bool
  | .merge => true
  | .commit => true
  | .push => true
  | .reset => true
  | .mergeAbort => true
  | .branchForce => true
  | _ => false

/-- Claim C1 as stated: on every `mergeBranch` call, no mutating git
command runs with the main workspace root as its working directory. -/
def C1ClaimProp (env : GitEnv) (opts : MergeBranchOptions) : Prop :=
  ∀ c ∈ (mergeBranch env opts).1, mutatingKind c.kind = true → c.cwd ≠ opts.workspaceRoot

/-- Whether the workspace is currently checked out on `targetBranch`
according to `git symbolic-ref --short HEAD` (detached HEAD counts as
not on the branch). -/
def onTargetBranch (env : GitEnv) (targetBranch : String) : Bool :=
  match env.symbolicRefShortHead with
  | .ok so _ => trimString so == targetBranch
  | .err _ _ _ => false

/-- Claim C7 as stated (weakest reading): every successful `mergeBranch`
call with `syncLocal` enabled performs some local-branch sync operation. -/
def C7ClaimProp (env : GitEnv) (opts : MergeBranchOptions) : Prop :=
  ∀ r, (mergeBranch env opts).2 = .ok r → r.success = true →
    opts.syncLocal.getD true = true →
    ∃ c ∈ (mergeBranch env opts).1, c.phase = Phase.syncPhase

/-- Replace exactly the sync-step command outcomes of an environment,
leaving every field the merge result can depend on untouched. -/
def setSyncOutcomes (env : GitEnv) (a b c d e : ExecRes) : GitEnv :=
  { env with
    symbolicRefShortHead := a
    mergeFfOnlyOrigin := b
    fetchTargetColonTarget := c
    mergeFfOnlyCommit := d
    branchForce := e }

/-- An environment in which every git command succeeds with empty output. -/
def envAllOk : GitEnv where
  remoteGetUrlOrigin := .ok "" ""
  symbolicRefOriginHead := .ok "refs/remotes/origin/main" ""
  revParseOriginMain := .ok "" ""
  revParseOriginMaster := .ok "" ""
  revParseLocalMain := .ok "" ""
  revParseLocalMaster := .ok "" ""
  fetchOrigin := .ok "" ""
  mergeBase := .ok "b" ""
  mergeTree := .ok "" ""
  leftoverWorktreeExists := false
  worktreeRemovePre := .ok "" ""
  worktreeAdd := .ok "" ""
  mergeSquash := .ok "" ""
  commitCmd := .ok "" ""
  revParseHead := .ok "h" ""
  mergeNoFf := .ok "" ""
  pushCmd := .ok "" ""
  resetHard := .ok "" ""
  mergeAbortCmd := .ok "" ""
  worktreeRemoveFinal := .ok "" ""
  symbolicRefShortHead := .ok "main" ""
  mergeFfOnlyOrigin := .ok "" ""
  fetchTargetColonTarget := .ok "" ""
  mergeFfOnlyCommit := .ok "" ""
  branchForce := .ok "" ""
  nowMs := 0

/-- Options for the C1 counterexample: remote mode, preflight off,
explicit target `main`, defaults elsewhere.  The workspace is checked out
on `main` (see `envAllOk.symbolicRefShortHead`), so the post-merge sync
runs `git merge --ff-only origin\x2fmain` in the workspace root. -/
def optsC1 : MergeBranchOptions where
  workspaceRoot := "/w"
  sourceBranch := "s"
  targetBranch := some "main"
  mergeStrategy := none
  autoPush := none
  commitMessage := some "m"
  preflight := some false
  syncLocal := none
  localOnly := some false

/-- Options for the C7 counterexample: identical to `optsC1` except that
`autoPush` is disabled, which skips the local sync step entirely in
remote mode. -/
def optsC7 : MergeBranchOptions where
  workspaceRoot := "/w"
  sourceBranch := "s"
  targetBranch := some "main"
  mergeStrategy := none
  autoPush := some false
  commitMessage := some "m"
  preflight := some false
  syncLocal := none
  localOnly := some false

/-- Task status values consulted by the diagnostics read model
(`TaskStatus.IN_PROGRESS` / `TaskStatus.REVIEW` plus the other states a
task can be in). -/
inductive TaskStatus where
  | backlog
  | todo
  | inProgress
  | review
  | done
  | cancelled
deriving Repr, DecidableEq

/-- The orchestrator metadata subset read by `collectStuckTasks`
(`getOrchestratorTaskMeta`): optional assigned agent, resume count and
merge status. -/
structure OrchMeta where
  assignedAgent : Option String
  resumeCount : Option Nat
  mergeStatus : Option String
deriving Repr, DecidableEq

/-- A task as seen by `diagnostics.ts`: id, title, status, and optional
orchestrator metadata (`getOrchestratorTaskMeta` returns nothing when the
metadata block is absent). -/
structure Task where
  id : String
  title : String
  status : TaskStatus
  metadata : Option OrchMeta
deriving Repr, DecidableEq

/-- `StuckTaskDiagnostic` from `diagnostics.ts:25`. -/
structure StuckTaskDiagnostic where
  taskId : String
  title : String
  status : TaskStatus
  assignee : Option String
  resumeCount : Nat
  mergeStatus : Option String
deriving Repr, DecidableEq

/-- The diagnostic entry pushed for a stuck task (`diagnostics.ts:178`);
`task.title \x7c\x7c task.id` is the id when the title is empty. -/
def stuckDiagOf (t : Task) : StuckTaskDiagnostic :=
  match t.metadata with
  | some m =>
    ⟨t.id, if t.title = "" then t.id else t.title, t.status,
      m.assignedAgent, m.resumeCount.getD 0, m.mergeStatus⟩
  | none => ⟨t.id, if t.title = "" then t.id else t.title, t.status, none, 0, none⟩

/-- `collectStuckTasks` from `diagnostics.ts:155`: filter tasks to
`in_progress`/`review`, then flag those with orchestrator metadata, an
assigned agent, `resumeCount >= 2` and no active session for that agent.
`active` is the session manager's `getActiveSession` oracle. -/
def collectStuckTasks (active : String → Bool) (tasks : List Task) :
    List StuckTaskDiagnostic :=
  let candidateTasks := tasks.filter
    (fun t => t.status == TaskStatus.inProgress || t.status == TaskStatus.review)
  candidateTasks.foldr (fun t acc =>
    match t.metadata with
    | none => acc
    | some meta =>
      let resumeCount := meta.resumeCount.getD 0
      match meta.assignedAgent with
      | some agent =>
        if resumeCount ≥ 2 then
          if active agent then acc else stuckDiagOf t :: acc
        else acc
      | none => acc) []

/-- Claim C8's stuck condition, written from the claim's words: status is
in_progress or review, an agent is assigned, resumeCount is at least 2,
and the session manager reports no active session for that agent. -/
def stuckPredicate (active : String → Bool) (t : Task) : Bool :=
  (t.status == TaskStatus.inProgress || t.status == TaskStatus.review)
    && (match t.metadata with
        | some m =>
          match m.assignedAgent with
          | some agent => decide (2 ≤ m.resumeCount.getD 0) && !active agent
          | none => false
        | none => false)

/-- Modelled from the spec: `RateLimitEntry` of the RateLimitTracker
(`\x7b executable, resetsAt, recordedAt \x7d`, timestamps in epoch
milliseconds); the tracker implementation itself ships only as tests in
this snapshot. -/
structure RateLimitEntry where
  executable : String
  resetsAt : Nat
  recordedAt : Nat
deriving Repr, DecidableEq

/-- Modelled from the spec: lazy expiry — an entry is logically absent
once `now >= resetsAt`; read paths sweep expired entries first. -/
def sweepExpired (now : Nat) (entries : List RateLimitEntry) : List RateLimitEntry :=
  entries.filter (fun e => now < e.resetsAt)

/-- Modelled from the spec: `isLimited` lazily expires and reports
whether a live entry exists for the executable. -/
def isLimited (entries : List RateLimitEntry) (now : Nat) (executable : String) : Bool :=
  (sweepExpired now entries).any (fun e => e.executable == executable)

/-- Modelled from the spec: `markLimited(executable, resetsAt)` records or
extends a throttle window and never shortens an existing live window — a
call with an earlier `resetsAt` than a live entry is a no-op, while a dead
entry or a later `resetsAt` is (re)recorded. -/
def markLimited (entries : List RateLimitEntry) (now : Nat)
    (executable : String) (resetsAt : Nat) : List RateLimitEntry :=
  match entries.find? (fun e => e.executable == executable) with
  | some existing =>
    if now < existing.resetsAt && resetsAt ≤ existing.resetsAt then
      entries
    else
      entries.map (fun e =>
        if e.executable == executable then ⟨executable, resetsAt, now⟩ else e)
  | none => entries ++ [⟨executable, resetsAt, now⟩]

/-- Modelled from the spec: `getAvailableExecutable(chain)` returns the
first chain element that is not limited, preserving chain order. -/
def getAvailableExecutable (entries : List RateLimitEntry) (now : Nat)
    (chain : List String) : Option String :=
  chain.find? (fun e => !isLimited entries now e)

/-- Modelled from the spec: `isAllLimited(chain)` is true only when the
chain is non-empty and every member is currently limited. -/
def isAllLimited (entries : List RateLimitEntry) (now : Nat)
    (chain : List String) : Bool :=
  !chain.isEmpty && chain.all (fun e => isLimited entries now e)

/-- The live reset time recorded for an executable, if any ("effective
reset" in claim C3). -/
def effectiveResetTime (entries : List RateLimitEntry) (now : Nat)
    (executable : String) : Option Nat :=
  ((sweepExpired now entries).find? (fun e => e.executable == executable)).map
    (fun e => e.resetsAt)

/-- Modelled from the spec: Retry-After seconds computed from
`soonestReset` — 60 when no reset time is known, otherwise the remaining
whole seconds clamped below at 1 (the route implementation ships only as
tests in this snapshot). -/
def computeRetryAfterSecs (soonestReset : Option Nat) (now : Nat) : Nat :=
  match soonestReset with
  | none => 60
  | some t => max 1 ((t - now) / 1000)

/-- The JSON error body of a 429 response:
`error: \x7b code, message, retryAfter, soonestReset \x7d`. -/
structure RateLimitErrorBody where
  code : String
  message : String
  retryAfter : Nat
  soonestReset : Option Nat
deriving Repr, DecidableEq

/-- A rate-limited HTTP rejection: status, `Retry-After` header seconds,
and the JSON error body. -/
structure RateLimitRejection where
  status : Nat
  retryAfterHeader : Nat
  body : RateLimitErrorBody
deriving Repr, DecidableEq

/-- Modelled from the spec: the rate-limit guard consulted by
`POST /sessions/:id/start` and `/resume` — rejects with 429 and
`RATE_LIMITED` when all configured executables are limited, otherwise
lets the request through. -/
def sessionRateLimitGuard (allLimited : Bool) (soonestReset : Option Nat)
    (now : Nat) : Option RateLimitRejection :=
  if allLimited then
    let retry := computeRetryAfterSecs soonestReset now
    some ⟨429, retry,
      ⟨"RATE_LIMITED", "All configured executables are currently rate-limited",
        retry, soonestReset⟩⟩
  else none

/-- Modelled from the spec: the start/resume route outcome — a rejection
when the guard fires, otherwise the session spawn proceeds. -/
def startSessionRoute (allLimited : Bool) (soonestReset : Option Nat)
    (now : Nat) : Except RateLimitRejection String :=
  match sessionRateLimitGuard allLimited soonestReset now with
  | some resp => .error resp
  | none => .ok "session-started"

/-- Modelled from the spec: program counter of the background startup
orphan-recovery task launched by `start()` — it snapshots the orphan set,
recovers each snapshotted task, then resolves the completion latch. -/
inductive RecoverySt where
  | notStarted
  | applying (pending : List Nat)
  | finished
deriving Repr, DecidableEq

/-- Modelled from the spec: program counter of the first `runPollCycle()`
— it awaits the completion latch, then runs its own orphan-recovery pass
over a fresh snapshot. -/
inductive PollSt where
  | awaitingLatch
  | applying (pending : List Nat)
  | finished
deriving Repr, DecidableEq

/-- Modelled from the spec: shared daemon state for the startup race —
per-task orphan flags, per-task counters of applied recovery side
effects, the promise-based completion latch, and both tasks' program
counters.  Tasks are indexed `0..numTasks-1`. -/
structure DaemonState where
  numTasks : Nat
  orphaned : Nat → Bool
  effects : Nat → Nat
  latchResolved : Bool
  recovery : RecoverySt
  poll : PollSt

/-- The orphan set visible at a snapshot point (a store query returning
the currently orphaned tasks). -/
def orphanSnapshot (s : DaemonState) : List Nat :=
  (List.range s.numTasks).filter (fun i => s.orphaned i)

/-- Apply recovery side effects to one snapshotted task: the task state
transition (no longer orphaned) together with one recorded side effect. -/
def applyRecovery (s : DaemonState) (i : Nat) : DaemonState :=
  { s with
    orphaned := fun j => if j = i then false else s.orphaned j
    effects := fun j => if j = i then s.effects j + 1 else s.effects j }

/-- One scheduler step of the background startup-recovery task.  The
latch is resolved only after the whole pass has been applied. -/
def stepRecovery (s : DaemonState) : DaemonState :=
  match s.recovery with
  | .notStarted => { s with recovery := .applying (orphanSnapshot s) }
  | .applying [] => { s with recovery := .finished, latchResolved := true }
  | .applying (i :: rest) => { applyRecovery s i with recovery := .applying rest }
  | .finished => s

/-- One scheduler step of the first poll cycle.  It cannot pass
`awaitingLatch` until the latch is resolved (awaiting a promise, not
reading a boolean flag), then runs its own recovery pass. -/
def stepPoll (s : DaemonState) : DaemonState :=
  match s.poll with
  | .awaitingLatch =>
    if s.latchResolved then { s with poll := .applying (orphanSnapshot s) } else s
  | .applying [] => { s with poll := .finished }
  | .applying (i :: rest) => { applyRecovery s i with poll := .applying rest }
  | .finished => s

/-- One interleaving step: the scheduler picks either the recovery task
(`true`) or the poll cycle (`false`). -/
def stepDaemon (s : DaemonState) (choice : Bool) : DaemonState :=
  if choice then stepRecovery s else stepPoll s

/-- Run an arbitrary interleaving schedule. -/
def runDaemon (s : DaemonState) : List Bool → DaemonState
  | [] => s
  | c :: cs => runDaemon (stepDaemon s c) cs

/-- State right after `start()` returned: recovery launched in the
background (not yet run), poll trigger already issued concurrently and
parked on the latch, no side effects applied. -/
def initDaemon (n : Nat) (orphan : Nat → Bool) : DaemonState :=
  ⟨n, orphan, fun _ => 0, false, .notStarted, .awaitingLatch⟩

/-- Whether a `mergeBranch` outcome is a thrown exception (promise
rejection) rather than a returned `MergeBranchResult`. -/
def exceptIsError : Except ExecErr MergeBranchResult → Bool
  | .error _ => true
  | .ok _ => false

/-- Environment for the C5 witness: the preflight dry run reports
conflict markers. -/
def envC5 : GitEnv :=
  { envAllOk with mergeTree := .ok "<<<<<<< HEAD" "" }

/-- Environment for the C5 merge-base-failure witness: no common
ancestor, so `git merge-base` rejects. -/
def envC5b : GitEnv :=
  { envAllOk with mergeBase := .err "" "" "no merge base" }

/-- Options with preflight enabled (the default) and an explicit target. -/
def optsC5 : MergeBranchOptions where
  workspaceRoot := "/w"
  sourceBranch := "s"
  targetBranch := some "main"
  mergeStrategy := none
  autoPush := none
  commitMessage := some "m"
  preflight := none
  syncLocal := none
  localOnly := some false

/-- Invariant of the startup-race model: the latch is resolved exactly
when the startup recovery pass has fully finished; pending work of the
startup pass covers exactly the still-orphaned tasks with no side effects
applied yet; finished passes leave exactly one side effect per initially
orphaned task; and the poll cycle only ever passes the latch after the
startup pass has finished, at which point its own snapshot is empty. -/
def daemonInv (n : Nat) (orphan : Nat → Bool) (s : DaemonState) : Prop :=
  s.numTasks = n
  ∧ (∀ i, n ≤ i → s.effects i = 0 ∧ s.orphaned i = orphan i)
  ∧ (match s.recovery with
     | .notStarted =>
        s.latchResolved = false ∧ ∀ i, i < n → s.orphaned i = orphan i ∧ s.effects i = 0
     | .applying pending =>
        s.latchResolved = false ∧ pending.Nodup
        ∧ (∀ i ∈ pending, i < n ∧ orphan i = true ∧ s.orphaned i = true ∧ s.effects i = 0)
        ∧ (∀ i, i < n → i ∉ pending →
            s.orphaned i = false ∧ s.effects i = (if orphan i then 1 else 0))
     | .finished =>
        s.latchResolved = true
        ∧ ∀ i, i < n → s.orphaned i = false ∧ s.effects i = (if orphan i then 1 else 0))
  ∧ (match s.poll with
     | .awaitingLatch => True
     | .applying pending => s.recovery = .finished ∧ pending = []
     | .finished => s.recovery = .finished)

/-!  Theorems.  Shared helper lemmas come first, then one theorem per
claim, with witnesses and counterexamples where required. -/

/-- The temp worktree directory is strictly inside the workspace root and
in particular never equal to it. -/
theorem mergeDirOf_ne_workspaceRoot (env : GitEnv) (opts : MergeBranchOptions) :
    mergeDirOf env opts ≠ opts.workspaceRoot := by
  intro h
  have hlen := congrArg String.length h
  simp only [mergeDirOf, String.length_append] at hlen
  have h31 : (0 : Nat) < "/.stoneforge/.worktrees/_merge-".length := by decide
  omega

/-- Claim C2: target-branch resolution follows the seven-step fallback
ladder — configured base branch, remote symbolic-ref, origin/main,
origin/master, local main, local master, literal "main" — returning the
first step that succeeds.  The configured base branch is the explicit
`targetBranch` option applied at the call site (`merge.ts:195`); the
remaining six steps are the canonical `detectTargetBranch`. -/
theorem C2_target_branch_fallback_order (configuredBase : Option String) (env : GitEnv) :
    resolveTargetBranch configuredBase env = specDetectTargetBranch configuredBase env := by
  cases configuredBase with
  | some t => rfl
  | none =>
    rcases h2 : env.symbolicRefOriginHead with ⟨so, se⟩ | ⟨so, se, m⟩ <;>
    rcases h3 : originHeadMatch so with _ | b <;>
    cases h1 : env.remoteGetUrlOrigin.isOk <;>
    cases h4 : env.revParseOriginMain.isOk <;>
    cases h5 : env.revParseOriginMaster.isOk <;>
    cases h6 : env.revParseLocalMain.isOk <;>
    cases h7 : env.revParseLocalMaster.isOk <;>
    simp_all [resolveTargetBranch, specDetectTargetBranch, specTargetBranchSteps,
      detectTargetBranch, hasRemote, detectRemoteFallback, detectLocalFallback, firstSome]

/-- Claim C10: `mergeBranch` throws exactly when the fetch, the leftover
worktree cleanup, or the worktree add fails on the executed path (all
before the try/finally); every later failure is converted into a
returned result. -/
theorem C10_mergeBranch_throw_conditions (env : GitEnv) (opts : MergeBranchOptions) :
    exceptIsError (mergeBranch env opts).2
      = (mbFetchThrows env opts || mbCleanupThrows env opts || mbAddThrows env opts) := by
  show exceptIsError (mergeBranchResult env opts) = _
  unfold mergeBranchResult
  split
  · simp_all [exceptIsError, mbCleanupThrows, mbAddThrows]
  · split
    · simp_all [exceptIsError, mbCleanupThrows, mbAddThrows]
    · split
      · simp_all [exceptIsError]
      · split
        · simp_all [exceptIsError]
        · simp_all [exceptIsError]

/-- A command recorded by the trace half of `execGitSafe` is the guarded
command itself: run via the wrapper, in the given worktree. -/
theorem execGitSafeTrace_mem (wt root : String) (k : CmdKind) (ph : Phase) :
    ∀ c ∈ execGitSafeTrace wt root k ph, c = ⟨k, wt, true, ph⟩ := by
  intro c hc
  unfold execGitSafeTrace at hc
  split at hc
  · simp at hc
  · simpa using hc

/-- The conflict-abort commands all run via the wrapper in the worktree,
in the merge phase. -/
theorem mergeErrorTrace_mem (strategy : MergeStrategy) (d root out : String) :
    ∀ c ∈ mergeErrorTrace strategy d root out,
      c.viaSafe = true ∧ c.cwd = d ∧ c.phase = Phase.mergePhase := by
  intro c hc
  unfold mergeErrorTrace at hc
  split at hc
  · cases strategy <;>
    · have h := execGitSafeTrace_mem _ _ _ _ c hc
      subst h
      exact ⟨rfl, rfl, rfl⟩
  · simp at hc

/-- Every command of the guarded merge phase runs via the wrapper in the
temp worktree. -/
theorem mergeExecTrace_mem (env : GitEnv) (strategy : MergeStrategy)
    (msg src : String) (autoPush localOnly : Bool) (d root : String) :
    ∀ c ∈ mergeExecTrace env strategy msg src autoPush localOnly d root,
      c.viaSafe = true ∧ c.cwd = d ∧ c.phase = Phase.mergePhase := by
  intro c hc
  have hpush : ∀ x ∈ mergeExecPushTrace autoPush localOnly d root,
      x.viaSafe = true ∧ x.cwd = d ∧ x.phase = Phase.mergePhase := by
    intro x hx
    unfold mergeExecPushTrace at hx
    split at hx
    · have h := execGitSafeTrace_mem _ _ _ _ x hx
      subst h
      exact ⟨rfl, rfl, rfl⟩
    · simp at hx
  have hsafe : ∀ (k : CmdKind) (x : Cmd), x ∈ execGitSafeTrace d root k Phase.mergePhase →
      x.viaSafe = true ∧ x.cwd = d ∧ x.phase = Phase.mergePhase := by
    intro k x hx
    have h := execGitSafeTrace_mem _ _ _ _ x hx
    subst h
    exact ⟨rfl, rfl, rfl⟩
  cases strategy <;>
  · unfold mergeExecTrace at hc
    repeat' split at hc
    all_goals simp only [List.mem_append] at hc
    all_goals repeat' rcases hc with hc | hc
    all_goals first
      | exact hsafe _ c hc
      | exact mergeErrorTrace_mem _ _ _ _ c hc
      | exact hpush c hc

/-- The local probes are plain `rev-parse --verify` reads in the root. -/
theorem detectLocalFallbackTrace_mem (env : GitEnv) (root : String) :
    ∀ c ∈ detectLocalFallbackTrace env root,
      c = ⟨.revParseVerify, root, false, .detect⟩ := by
  intro c hc
  unfold detectLocalFallbackTrace at hc
  split at hc
  · simpa using hc
  · simp only [List.mem_cons, List.not_mem_nil, or_false] at hc
    rcases hc with hc | hc <;> exact hc

/-- The remote probes are plain `rev-parse --verify` reads in the root. -/
theorem detectRemoteFallbackTrace_mem (env : GitEnv) (root : String) :
    ∀ c ∈ detectRemoteFallbackTrace env root,
      c = ⟨.revParseVerify, root, false, .detect⟩ := by
  intro c hc
  unfold detectRemoteFallbackTrace at hc
  split at hc
  · simpa using hc
  · split at hc
    · simp only [List.mem_cons, List.not_mem_nil, or_false] at hc
      rcases hc with hc | hc <;> exact hc
    · rcases List.mem_append.mp hc with h | h
      · simp only [List.mem_cons, List.not_mem_nil, or_false] at h
        rcases h with h | h <;> exact h
      · exact detectLocalFallbackTrace_mem env root c h

/-- Every command of target-branch detection is a plain read in the
workspace root during the detect phase. -/
theorem detectTargetBranchTrace_mem (env : GitEnv) (root : String) :
    ∀ c ∈ detectTargetBranchTrace env root,
      c.phase = Phase.detect ∧ c.viaSafe = false ∧ c.cwd = root ∧
        c.kind ≠ CmdKind.worktreeAdd := by
  intro c hc
  unfold detectTargetBranchTrace at hc
  rcases List.mem_append.mp hc with h | h
  · simp only [List.mem_singleton] at h
    subst h
    exact ⟨rfl, rfl, rfl, by simp⟩
  · split at h
    · rcases List.mem_append.mp h with h2 | h2
      · simp only [List.mem_singleton] at h2
        subst h2
        exact ⟨rfl, rfl, rfl, by simp⟩
      · split at h2
        · split at h2
          · simp at h2
          · have h3 := detectRemoteFallbackTrace_mem env root c h2
            subst h3
            exact ⟨rfl, rfl, rfl, by simp⟩
        · have h3 := detectRemoteFallbackTrace_mem env root c h2
          subst h3
          exact ⟨rfl, rfl, rfl, by simp⟩
    · have h3 := detectLocalFallbackTrace_mem env root c h
      subst h3
      exact ⟨rfl, rfl, rfl, by simp⟩

/-- Commands before the worktree phase: detection reads and the fetch,
all in the workspace root, never a worktree add. -/
theorem mergeBranchPreTrace_mem (env : GitEnv) (opts : MergeBranchOptions) :
    ∀ c ∈ mergeBranchPreTrace env opts,
      (c.phase = Phase.detect ∨ c.phase = Phase.fetchPhase) ∧ c.viaSafe = false ∧
        c.cwd = opts.workspaceRoot ∧ c.kind ≠ CmdKind.worktreeAdd := by
  intro c hc
  unfold mergeBranchPreTrace at hc
  rcases List.mem_append.mp hc with h | h
  · rcases List.mem_append.mp h with h1 | h1
    · split at h1
      · simp at h1
      · simp only [List.mem_singleton] at h1
        subst h1
        exact ⟨Or.inl rfl, rfl, rfl, by simp⟩
    · split at h1
      · simp at h1
      · obtain ⟨p1, p2, p3, p4⟩ := detectTargetBranchTrace_mem env opts.workspaceRoot c h1
        exact ⟨Or.inl p1, p2, p3, p4⟩
  · split at h
    · simp only [List.mem_singleton] at h
      subst h
      exact ⟨Or.inr rfl, rfl, rfl, by simp⟩
    · simp at h

/-- Commands of the preflight block: the merge-base and dry-run reads in
the workspace root. -/
theorem mergeBranchPreflightTrace_mem (env : GitEnv) (opts : MergeBranchOptions) :
    ∀ c ∈ mergeBranchPreflightTrace env opts,
      c.phase = Phase.preflightPhase ∧ c.viaSafe = false ∧
        c.cwd = opts.workspaceRoot ∧ c.kind ≠ CmdKind.worktreeAdd := by
  intro c hc
  unfold mergeBranchPreflightTrace at hc
  split at hc
  · split at hc
    · simp only [List.mem_cons, List.not_mem_nil, or_false] at hc
      rcases hc with h | h <;> (subst h; exact ⟨rfl, rfl, rfl, by simp⟩)
    · simp only [List.mem_singleton] at hc
      subst hc
      exact ⟨rfl, rfl, rfl, by simp⟩
  · simp at hc

/-- The remote-mode sync commands run in the workspace root during the
sync phase. -/
theorem syncLocalBranch_mem (env : GitEnv) (root tgt : String) :
    ∀ c ∈ syncLocalBranch env root tgt,
      c.phase = Phase.syncPhase ∧ c.cwd = root := by
  intro c hc
  unfold syncLocalBranch at hc
  split at hc
  · simp only [List.mem_singleton] at hc
    subst hc
    exact ⟨rfl, rfl⟩
  · split at hc <;>
    · simp only [List.mem_cons, List.not_mem_nil, or_false] at hc
      rcases hc with h | h <;> (subst h; exact ⟨rfl, rfl⟩)

/-- The local-only sync commands run in the workspace root during the
sync phase. -/
theorem syncLocalBranchFromCommit_mem (env : GitEnv) (root tgt ch : String) :
    ∀ c ∈ syncLocalBranchFromCommit env root tgt ch,
      c.phase = Phase.syncPhase ∧ c.cwd = root := by
  intro c hc
  unfold syncLocalBranchFromCommit at hc
  split at hc
  · split at hc <;>
    · simp only [List.mem_cons, List.not_mem_nil, or_false] at hc
      rcases hc with h | h <;> (subst h; exact ⟨rfl, rfl⟩)
  · simp only [List.mem_cons, List.not_mem_nil, or_false] at hc
    rcases hc with h | h <;> (subst h; exact ⟨rfl, rfl⟩)

/-- The leftover cleanup command runs in the root during worktree prep. -/
theorem mergeBranchCleanupTrace_mem (env : GitEnv) (opts : MergeBranchOptions) :
    ∀ c ∈ mergeBranchCleanupTrace env opts,
      c = ⟨.worktreeRemove, opts.workspaceRoot, false, .worktreePrep⟩ := by
  intro c hc
  unfold mergeBranchCleanupTrace at hc
  split at hc
  · simpa using hc
  · simp at hc

/-- All post-merge sync commands run in the workspace root during the
sync phase. -/
theorem mergeBranchSyncTrace_mem (env : GitEnv) (opts : MergeBranchOptions)
    (r : MergeBranchResult) :
    ∀ c ∈ mergeBranchSyncTrace env opts r,
      c.phase = Phase.syncPhase ∧ c.cwd = opts.workspaceRoot := by
  intro c hc
  unfold mergeBranchSyncTrace at hc
  split at hc
  · split at hc
    · exact syncLocalBranchFromCommit_mem env opts.workspaceRoot _ _ c hc
    · split at hc
      · exact syncLocalBranch_mem env opts.workspaceRoot _ c hc
      · simp at hc
  · simp at hc

/-- Claim C1, counterexample to the claim as stated: with a remote,
`autoPush` and `syncLocal` enabled (their defaults) and the workspace
checked out on the target branch, a successful `mergeBranch` runs the
mutating `git merge --ff-only origin\x2fmain` with the main workspace root
as its working directory (the post-merge local sync, `merge.ts:381`), so
"no mutating git command ever runs with the main workspace root as its
working directory" is false for this call. -/
theorem C1_counterexample_sync_ff_merge_in_root : ¬ C1ClaimProp envAllOk optsC1 := by
  intro h
  exact h ⟨CmdKind.merge, "/w", false, Phase.syncPhase⟩ (by decide) rfl rfl

/-- Claim C1 as amended: every merge-phase git command (merge, commit,
rev-parse, push, reset/abort) is executed through `execGitSafe` against
the temp worktree, whose path never equals the workspace root; and
`execGitSafe` refuses (throws, running nothing) whenever the resolved
worktree path equals the resolved workspace root.  Hence the merge phase
never mutates the main checkout — only the optional post-merge local
sync step may run a fast-forward merge in the workspace root. -/
theorem C1_merge_phase_guarded :
    (∀ (env : GitEnv) (opts : MergeBranchOptions) (c : Cmd),
        c ∈ (mergeBranch env opts).1 → c.phase = Phase.mergePhase →
        c.viaSafe = true ∧ c.cwd = mergeDirOf env opts ∧ c.cwd ≠ opts.workspaceRoot)
  ∧ (∀ (outcome : ExecRes) (command wt root : String) (k : CmdKind) (ph : Phase),
        wt = root →
        (execGitSafe outcome command wt root k ph).1 = [] ∧
        (execGitSafe outcome command wt root k ph).2 = Except.error ⟨"", "",
          "SAFETY: Refusing to run \"git " ++ command ++ "\" in main repo. Use a worktree."⟩) := by
  constructor
  · intro env opts c hc hph
    have hpre : c ∈ mergeBranchPreTrace env opts → False := by
      intro h0
      rcases (mergeBranchPreTrace_mem env opts c h0).1 with h1 | h1 <;>
        (rw [hph] at h1; cases h1)
    have hpf : c ∈ mergeBranchPreflightTrace env opts → False := by
      intro h0
      have h1 := (mergeBranchPreflightTrace_mem env opts c h0).1
      rw [hph] at h1
      cases h1
    have hcl : c ∈ mergeBranchCleanupTrace env opts → False := by
      intro h0
      have h1 := mergeBranchCleanupTrace_mem env opts c h0
      subst h1
      cases hph
    have hadd : c ∈ ([⟨CmdKind.worktreeAdd, opts.workspaceRoot, false, Phase.worktreePrep⟩] : List Cmd) → False := by
      intro h0
      simp only [List.mem_singleton] at h0
      subst h0
      cases hph
    have hwr : c ∈ ([⟨CmdKind.worktreeRemove, opts.workspaceRoot, false, Phase.cleanupPhase⟩] : List Cmd) → False := by
      intro h0
      simp only [List.mem_singleton] at h0
      subst h0
      cases hph
    have hsync : ∀ r, c ∈ mergeBranchSyncTrace env opts r → False := by
      intro r h0
      have h1 := (mergeBranchSyncTrace_mem env opts r c h0).1
      rw [hph] at h1
      cases h1
    change c ∈ mergeBranchTrace env opts at hc
    unfold mergeBranchTrace at hc
    split at hc
    · exact (hpre hc).elim
    · split at hc
      · rcases List.mem_append.mp hc with h | h
        · exact (hpre h).elim
        · exact (hpf h).elim
      · split at hc
        · rcases List.mem_append.mp hc with h | h
          · rcases List.mem_append.mp h with h2 | h2
            · exact (hpre h2).elim
            · exact (hpf h2).elim
          · exact (hcl h).elim
        · split at hc
          · rcases List.mem_append.mp hc with h | h
            · rcases List.mem_append.mp h with h2 | h2
              · rcases List.mem_append.mp h2 with h3 | h3
                · exact (hpre h3).elim
                · exact (hpf h3).elim
              · exact (hcl h2).elim
            · exact (hadd h).elim
          · rcases List.mem_append.mp hc with h | h
            · rcases List.mem_append.mp h with h2 | h2
              · rcases List.mem_append.mp h2 with h3 | h3
                · rcases List.mem_append.mp h3 with h4 | h4
                  · rcases List.mem_append.mp h4 with h5 | h5
                    · rcases List.mem_append.mp h5 with h6 | h6
                      · exact (hpre h6).elim
                      · exact (hpf h6).elim
                    · exact (hcl h5).elim
                  · exact (hadd h4).elim
                · obtain ⟨p1, p2, _⟩ := mergeExecTrace_mem env (mbStrategy opts)
                    (mbMessage env opts) opts.sourceBranch (mbAutoPush opts)
                    (mbLocalOnly env opts) (mergeDirOf env opts) opts.workspaceRoot c h3
                  refine ⟨p1, p2, ?_⟩
                  rw [p2]
                  exact mergeDirOf_ne_workspaceRoot env opts
              · exact (hwr h2).elim
            · exact (hsync _ h).elim
  · intro outcome command wt root k ph hw
    constructor
    · show execGitSafeTrace wt root k ph = []
      unfold execGitSafeTrace
      simp [hw]
    · show execGitSafeResult outcome command wt root = _
      unfold execGitSafeResult
      simp [hw]

/-- Witness for `C1_merge_phase_guarded` at the concrete run of
`envAllOk` / `optsC1` and at a concrete refused wrapper call. -/
theorem C1_merge_phase_guarded_witness :
    ((⟨CmdKind.merge, "/w/.stoneforge/.worktrees/_merge-s-0", true, Phase.mergePhase⟩ : Cmd).viaSafe = true
      ∧ (⟨CmdKind.merge, "/w/.stoneforge/.worktrees/_merge-s-0", true, Phase.mergePhase⟩ : Cmd).cwd
          = mergeDirOf envAllOk optsC1
      ∧ (⟨CmdKind.merge, "/w/.stoneforge/.worktrees/_merge-s-0", true, Phase.mergePhase⟩ : Cmd).cwd
          ≠ optsC1.workspaceRoot)
    ∧ ((execGitSafe (.ok "" "") "merge --squash s" "/w" "/w" .merge .mergePhase).1 = []
      ∧ (execGitSafe (.ok "" "") "merge --squash s" "/w" "/w" .merge .mergePhase).2
          = Except.error ⟨"", "",
            "SAFETY: Refusing to run \"git " ++ "merge --squash s" ++ "\" in main repo. Use a worktree."⟩) :=
  ⟨C1_merge_phase_guarded.1 envAllOk optsC1
      ⟨CmdKind.merge, "/w/.stoneforge/.worktrees/_merge-s-0", true, Phase.mergePhase⟩
      (by decide) rfl,
    C1_merge_phase_guarded.2 (.ok "" "") "merge --squash s" "/w" "/w" .merge .mergePhase rfl⟩

/-- Claim C5: with preflight enabled and a dry run carrying conflict
markers, `mergeBranch` (once the fetch step has not thrown) returns the
cheap rejection `\x7b success:false, hasConflict:true, conflictFiles \x7d`
without ever creating the temporary worktree; and a merge-base failure
(no common ancestor) is non-fatal — the call still reaches the
`git worktree add` step. -/
theorem C5_preflight_cheap_rejection :
    (∀ (env : GitEnv) (opts : MergeBranchOptions),
        mbFetchThrows env opts = false →
        mbPreflightOn opts = true →
        env.mergeBase.isOk = true →
        containsSubstr env.mergeTree.stdoutOf "<<<<<<<" = true →
        (mergeBranch env opts).2 = .ok ⟨false, none, true,
            some "Pre-flight: merge conflicts detected", preflightConflictFiles env⟩
          ∧ ∀ c ∈ (mergeBranch env opts).1, c.kind ≠ CmdKind.worktreeAdd)
  ∧ (∀ (env : GitEnv) (opts : MergeBranchOptions),
        mbFetchThrows env opts = false →
        mbPreflightOn opts = true →
        env.mergeBase.isOk = false →
        mbCleanupThrows env opts = false →
        (⟨CmdKind.worktreeAdd, opts.workspaceRoot, false, Phase.worktreePrep⟩ : Cmd)
          ∈ (mergeBranch env opts).1) := by
  constructor
  · intro env opts h1 h2 h3 h4
    have hrej : mbPreflightRejects env opts = true := by
      unfold mbPreflightRejects
      rw [h2, h3, h4]
      rfl
    constructor
    · show mergeBranchResult env opts = _
      unfold mergeBranchResult
      rw [h1, hrej]
      simp [preflightRejectResult]
    · intro c hc
      change c ∈ mergeBranchTrace env opts at hc
      unfold mergeBranchTrace at hc
      split at hc
      · next hcond => rw [h1] at hcond; exact absurd hcond (by decide)
      · rcases List.mem_append.mp hc with h | h
        · exact (mergeBranchPreTrace_mem env opts c h).2.2.2
        · exact (mergeBranchPreflightTrace_mem env opts c h).2.2.2
  · intro env opts h1 h2 h3 h5
    have hrej : mbPreflightRejects env opts = false := by
      unfold mbPreflightRejects
      rw [h3]
      simp
    have haddmem : ∀ (l1 l2 : List Cmd),
        (⟨CmdKind.worktreeAdd, opts.workspaceRoot, false, Phase.worktreePrep⟩ : Cmd)
          ∈ l1 ++ [(⟨CmdKind.worktreeAdd, opts.workspaceRoot, false, Phase.worktreePrep⟩ : Cmd)] ++ l2 := by
      intro l1 l2
      exact List.mem_append.mpr (Or.inl (List.mem_append.mpr (Or.inr (by simp))))
    change _ ∈ mergeBranchTrace env opts
    unfold mergeBranchTrace
    rw [h1, hrej, h5]
    simp only [Bool.false_eq_true, if_false]
    split
    · exact List.mem_append.mpr (Or.inr (by simp))
    · refine List.mem_append.mpr (Or.inl ?_)
      refine List.mem_append.mpr (Or.inl ?_)
      exact List.mem_append.mpr (Or.inl (List.mem_append.mpr (Or.inr (by simp))))

/-- Witness for `C5_preflight_cheap_rejection`: a conflicting dry run on
`envC5` returns the rejection with no worktree command, and a merge-base
failure on `envC5b` still reaches worktree creation. -/
theorem C5_preflight_cheap_rejection_witness :
    ((mergeBranch envC5 optsC5).2 = .ok ⟨false, none, true,
        some "Pre-flight: merge conflicts detected", preflightConflictFiles envC5⟩
      ∧ ∀ c ∈ (mergeBranch envC5 optsC5).1, c.kind ≠ CmdKind.worktreeAdd)
    ∧ (⟨CmdKind.worktreeAdd, optsC5.workspaceRoot, false, Phase.worktreePrep⟩ : Cmd)
        ∈ (mergeBranch envC5b optsC5).1 :=
  ⟨C5_preflight_cheap_rejection.1 envC5 optsC5 rfl rfl rfl (by decide),
    C5_preflight_cheap_rejection.2 envC5b optsC5 rfl rfl rfl rfl⟩

/-- Claim C7, counterexample to the claim as stated: a successful merge
with `syncLocal` enabled (its default) but `autoPush` disabled in remote
mode performs no local-branch sync at all (`merge.ts:338` gates the sync
on `autoPush`), so "the local target branch is fast-forwarded" fails. -/
theorem C7_counterexample_no_sync_when_autoPush_off : ¬ C7ClaimProp envAllOk optsC7 := by
  intro h
  obtain ⟨c, hc, hph⟩ := h ⟨true, some "h", false, none, none⟩ rfl rfl rfl
  have hnone : ∀ x ∈ (mergeBranch envAllOk optsC7).1, x.phase ≠ Phase.syncPhase := by decide
  exact hnone c hc hph

/-- Claim C7 as amended: on every successful `mergeBranch` with
`syncLocal` enabled, the local sync runs as follows — in local-only mode
it always syncs (an in-place `merge --ff-only` when the workspace is
checked out on the target branch, touching the working tree, otherwise a
ref-only `branch -f`); in remote mode it syncs only when `autoPush` is
also enabled (an in-place `merge --ff-only` when on the target branch,
otherwise a ref-only `fetch <target>:<target>`), and performs no sync at
all when `autoPush` is off.  A failure of any sync command never changes
the returned merge result (the result does not depend on the sync
outcomes at all). -/
theorem C7_sync_local_modes :
    (∀ (env : GitEnv) (opts : MergeBranchOptions) (r : MergeBranchResult),
      (mergeBranch env opts).2 = .ok r → r.success = true → mbSyncLocal opts = true →
        ((mbLocalOnly env opts = true →
            onTargetBranch env (mbTargetBranch env opts) = true →
            (⟨CmdKind.merge, opts.workspaceRoot, false, Phase.syncPhase⟩ : Cmd)
              ∈ (mergeBranch env opts).1)
        ∧ (mbLocalOnly env opts = true →
            onTargetBranch env (mbTargetBranch env opts) = false →
            (⟨CmdKind.branchForce, opts.workspaceRoot, false, Phase.syncPhase⟩ : Cmd)
              ∈ (mergeBranch env opts).1)
        ∧ (mbLocalOnly env opts = false → mbAutoPush opts = true →
            onTargetBranch env (mbTargetBranch env opts) = true →
            (⟨CmdKind.merge, opts.workspaceRoot, false, Phase.syncPhase⟩ : Cmd)
              ∈ (mergeBranch env opts).1)
        ∧ (mbLocalOnly env opts = false → mbAutoPush opts = true →
            ∀ so se, env.symbolicRefShortHead = .ok so se →
            trimString so ≠ mbTargetBranch env opts →
            (⟨CmdKind.fetch, opts.workspaceRoot, false, Phase.syncPhase⟩ : Cmd)
              ∈ (mergeBranch env opts).1)
        ∧ (mbLocalOnly env opts = false → mbAutoPush opts = false →
            ∀ c ∈ (mergeBranch env opts).1, c.phase ≠ Phase.syncPhase)))
  ∧ (∀ (env : GitEnv) (opts : MergeBranchOptions) (a b c d e : ExecRes),
      (mergeBranch (setSyncOutcomes env a b c d e) opts).2 = (mergeBranch env opts).2) := by
  constructor
  · intro env opts r hok hs hsync
    have hok' : mergeBranchResult env opts = .ok r := hok
    have hfetch : mbFetchThrows env opts = false := by
      by_contra hx
      rw [Bool.not_eq_false] at hx
      unfold mergeBranchResult at hok'
      rw [hx] at hok'
      simp at hok'
    have hrej : mbPreflightRejects env opts = false := by
      by_contra hx
      rw [Bool.not_eq_false] at hx
      unfold mergeBranchResult at hok'
      rw [hfetch, hx] at hok'
      simp [preflightRejectResult] at hok'
      rw [← hok'] at hs
      simp at hs
    have hcl : mbCleanupThrows env opts = false := by
      by_contra hx
      rw [Bool.not_eq_false] at hx
      unfold mergeBranchResult at hok'
      rw [hfetch, hrej, hx] at hok'
      simp at hok'
    have hadd : mbAddThrows env opts = false := by
      by_contra hx
      rw [Bool.not_eq_false] at hx
      unfold mergeBranchResult at hok'
      rw [hfetch, hrej, hcl, hx] at hok'
      simp at hok'
    have hres : mergeExecResult env (mbStrategy opts) (mbMessage env opts)
        opts.sourceBranch (mergeDirOf env opts) opts.workspaceRoot = r := by
      unfold mergeBranchResult at hok'
      rw [hfetch, hrej, hcl, hadd] at hok'
      simpa using hok'
    have htrace : (mergeBranch env opts).1
        = mergeBranchPreTrace env opts ++ mergeBranchPreflightTrace env opts
          ++ mergeBranchCleanupTrace env opts
          ++ [⟨.worktreeAdd, opts.workspaceRoot, false, .worktreePrep⟩]
          ++ mergeExecTrace env (mbStrategy opts) (mbMessage env opts)
            opts.sourceBranch (mbAutoPush opts) (mbLocalOnly env opts)
            (mergeDirOf env opts) opts.workspaceRoot
          ++ [⟨.worktreeRemove, opts.workspaceRoot, false, .cleanupPhase⟩]
          ++ mergeBranchSyncTrace env opts
            (mergeExecResult env (mbStrategy opts) (mbMessage env opts)
              opts.sourceBranch (mergeDirOf env opts) opts.workspaceRoot) := by
      show mergeBranchTrace env opts = _
      unfold mergeBranchTrace
      rw [hfetch, hrej, hcl, hadd]
      simp only [Bool.false_eq_true, if_false]
    have hsmem : ∀ x ∈ mergeBranchSyncTrace env opts
        (mergeExecResult env (mbStrategy opts) (mbMessage env opts)
          opts.sourceBranch (mergeDirOf env opts) opts.workspaceRoot),
        x ∈ (mergeBranch env opts).1 := by
      rw [htrace]
      intro x hx
      exact List.mem_append.mpr (Or.inr hx)
    have hsuccess : (mergeExecResult env (mbStrategy opts) (mbMessage env opts)
        opts.sourceBranch (mergeDirOf env opts) opts.workspaceRoot).success = true := by
      rw [hres]
      exact hs
    refine ⟨?_, ?_, ?_, ?_, ?_⟩
    · intro hlo honT
      apply hsmem
      unfold mergeBranchSyncTrace
      rw [hsuccess, hsync, hlo]
      simp only [Bool.and_self, if_true]
      unfold onTargetBranch at honT
      unfold syncLocalBranchFromCommit
      rcases henv : env.symbolicRefShortHead with ⟨so, se⟩ | ⟨so, se, m⟩
      · rw [henv] at honT
        simp only [beq_iff_eq] at honT
        simp [honT]
      · rw [henv] at honT
        simp at honT
    · intro hlo honT
      apply hsmem
      unfold mergeBranchSyncTrace
      rw [hsuccess, hsync, hlo]
      simp only [Bool.and_self, if_true]
      unfold onTargetBranch at honT
      unfold syncLocalBranchFromCommit
      rcases henv : env.symbolicRefShortHead with ⟨so, se⟩ | ⟨so, se, m⟩
      · rw [henv] at honT
        simp only [beq_eq_false_iff_ne, ne_eq] at honT
        simp [honT]
      · simp
    · intro hlo hpush honT
      apply hsmem
      unfold mergeBranchSyncTrace
      rw [hsuccess, hsync, hlo, hpush]
      simp only [Bool.and_self, if_true, Bool.false_eq_true, if_false]
      unfold onTargetBranch at honT
      unfold syncLocalBranch
      rcases henv : env.symbolicRefShortHead with ⟨so, se⟩ | ⟨so, se, m⟩
      · rw [henv] at honT
        simp only [beq_iff_eq] at honT
        simp [honT]
      · rw [henv] at honT
        simp at honT
    · intro hlo hpush so se henv hne
      apply hsmem
      unfold mergeBranchSyncTrace
      rw [hsuccess, hsync, hlo, hpush]
      simp only [Bool.and_self, if_true, Bool.false_eq_true, if_false]
      unfold syncLocalBranch
      rw [henv]
      simp [hne]
    · intro hlo hpush c hcmem
      have hempty : mergeBranchSyncTrace env opts
          (mergeExecResult env (mbStrategy opts) (mbMessage env opts)
            opts.sourceBranch (mergeDirOf env opts) opts.workspaceRoot) = [] := by
        unfold mergeBranchSyncTrace
        rw [hlo, hpush]
        split <;> simp
      rw [htrace, hempty, List.append_nil] at hcmem
      intro hph
      have hpre : c ∈ mergeBranchPreTrace env opts → False := by
        intro h0
        rcases (mergeBranchPreTrace_mem env opts c h0).1 with h1 | h1 <;>
          (rw [hph] at h1; cases h1)
      have hpf : c ∈ mergeBranchPreflightTrace env opts → False := by
        intro h0
        have h1 := (mergeBranchPreflightTrace_mem env opts c h0).1
        rw [hph] at h1
        cases h1
      have hclm : c ∈ mergeBranchCleanupTrace env opts → False := by
        intro h0
        have h1 := mergeBranchCleanupTrace_mem env opts c h0
        subst h1
        cases hph
      have hme : c ∈ mergeExecTrace env (mbStrategy opts) (mbMessage env opts)
          opts.sourceBranch (mbAutoPush opts) (mbLocalOnly env opts)
          (mergeDirOf env opts) opts.workspaceRoot → False := by
        intro h0
        have h1 := (mergeExecTrace_mem env (mbStrategy opts) (mbMessage env opts)
          opts.sourceBranch (mbAutoPush opts) (mbLocalOnly env opts)
          (mergeDirOf env opts) opts.workspaceRoot c h0).2.2
        rw [hph] at h1
        cases h1
      rcases List.mem_append.mp hcmem with h | h
      · rcases List.mem_append.mp h with h2 | h2
        · rcases List.mem_append.mp h2 with h3 | h3
          · rcases List.mem_append.mp h3 with h4 | h4
            · rcases List.mem_append.mp h4 with h5 | h5
              · exact hpre h5
              · exact hpf h5
            · exact hclm h4
          · simp only [List.mem_singleton] at h3
            subst h3
            cases hph
        · exact hme h2
      · simp only [List.mem_singleton] at h
        subst h
        cases hph
  · intro env opts a b c d e
    rfl

/-- Witness for `C7_sync_local_modes`: the default successful remote-mode
merge of `envAllOk` / `optsC1` (checked out on the target) runs the
in-place fast-forward, and replacing the sync outcomes leaves the result
unchanged. -/
theorem C7_sync_local_modes_witness :
    (⟨CmdKind.merge, "/w", false, Phase.syncPhase⟩ : Cmd) ∈ (mergeBranch envAllOk optsC1).1
    ∧ (mergeBranch (setSyncOutcomes envAllOk (.err "" "" "boom") (.err "" "" "boom")
        (.err "" "" "boom") (.err "" "" "boom") (.err "" "" "boom")) optsC1).2
      = (mergeBranch envAllOk optsC1).2 := by
  constructor
  · have h := (C7_sync_local_modes.1 envAllOk optsC1 ⟨true, some "h", false, none, none⟩
      rfl rfl rfl).2.2.1 rfl rfl (by decide)
    simpa using h
  · exact C7_sync_local_modes.2 envAllOk optsC1 (.err "" "" "boom") (.err "" "" "boom")
      (.err "" "" "boom") (.err "" "" "boom") (.err "" "" "boom")

/-- Claim C8: the diagnostics read model reports a task as stuck exactly
when its status is in_progress or review, it has an assigned agent, its
resumeCount is at least 2, and the session manager reports no active
session for that agent — the collected list is precisely the filter of
the task list by that condition (flagged in the response, with no retry
side effect: the collection is a pure read). -/
theorem C8_stuck_tasks_exactly (active : String → Bool) (tasks : List Task) :
    collectStuckTasks active tasks
      = (tasks.filter (stuckPredicate active)).map stuckDiagOf := by
  induction tasks with
  | nil => rfl
  | cons t ts ih =>
    have hstep :
        collectStuckTasks active (t :: ts)
          = (if (t.status == TaskStatus.inProgress || t.status == TaskStatus.review) = true
             then (fun acc =>
                match t.metadata with
                | none => acc
                | some meta =>
                  match meta.assignedAgent with
                  | some agent =>
                    if meta.resumeCount.getD 0 ≥ 2 then
                      if active agent then acc else stuckDiagOf t :: acc
                    else acc
                  | none => acc) (collectStuckTasks active ts)
             else collectStuckTasks active ts) := by
      unfold collectStuckTasks
      simp only [List.filter_cons]
      split
      · rfl
      · rfl
    rw [hstep, ih]
    by_cases hst : (t.status == TaskStatus.inProgress || t.status == TaskStatus.review) = true
    · rw [if_pos hst]
      rcases hm : t.metadata with _ | meta
      · have hp : stuckPredicate active t = false := by
          simp [stuckPredicate, hm]
        simp [List.filter_cons, hp, hm]
      · rcases ha : meta.assignedAgent with _ | agent
        · have hp : stuckPredicate active t = false := by
            simp [stuckPredicate, hm, ha]
          simp [List.filter_cons, hp, hm, ha]
        · by_cases hr2 : 2 ≤ meta.resumeCount.getD 0
          · by_cases hact : active agent = true
            · have hp : stuckPredicate active t = false := by
                simp [stuckPredicate, hm, ha, hact]
              simp [List.filter_cons, hp, hm, ha, hr2, hact]
            · have hab : active agent = false := by
                rw [Bool.not_eq_true] at hact
                exact hact
              have hp : stuckPredicate active t = true := by
                simp [stuckPredicate, hm, ha, hst, hab, hr2]
              simp [List.filter_cons, hp, hm, ha, hr2, hab]
          · have hp : stuckPredicate active t = false := by
              simp [stuckPredicate, hm, ha, hr2]
            simp [List.filter_cons, hp, hm, ha, hr2]
    · rw [if_neg hst]
      have hb : (t.status == TaskStatus.inProgress || t.status == TaskStatus.review) = false := by
        rw [Bool.not_eq_true] at hst
        exact hst
      have hp : stuckPredicate active t = false := by
        simp [stuckPredicate, hb]
      simp [List.filter_cons, hp]

/-- Filtering preserves the first match when that match satisfies the
filter. -/
theorem find?_filter_of_true {α : Type} (l : List α) (p q : α → Bool) (a : α)
    (h : l.find? p = some a) (hq : q a = true) : (l.filter q).find? p = some a := by
  induction l with
  | nil => simp at h
  | cons x xs ih =>
    by_cases hx : p x = true
    · rw [List.find?_cons_of_pos _ hx] at h
      injection h with h
      subst h
      rw [List.filter_cons, if_pos hq, List.find?_cons_of_pos _ hx]
    · rw [List.find?_cons_of_neg _ hx] at h
      rw [List.filter_cons]
      split
      · rw [List.find?_cons_of_neg _ hx]
        exact ih h
      · exact ih h

/-- Filtering cannot create a match. -/
theorem find?_filter_of_none {α : Type} (l : List α) (p q : α → Bool)
    (h : l.find? p = none) : (l.filter q).find? p = none := by
  rw [List.find?_eq_none] at h ⊢
  intro x hx
  exact h x (List.mem_of_mem_filter hx)

/-- Mapping by a match-status-preserving function maps the first match. -/
theorem find?_map_pred {α : Type} (l : List α) (p : α → Bool) (f : α → α) (a : α)
    (h : l.find? p = some a) (hf : ∀ x, p (f x) = p x) :
    (l.map f).find? p = some (f a) := by
  induction l with
  | nil => simp at h
  | cons x xs ih =>
    by_cases hx : p x = true
    · rw [List.find?_cons_of_pos _ hx] at h
      injection h with h
      subst h
      rw [List.map_cons, List.find?_cons_of_pos]
      rw [hf]
      exact hx
    · rw [List.find?_cons_of_neg _ hx] at h
      rw [List.map_cons, List.find?_cons_of_neg]
      · exact ih h
      · rw [hf]
        exact hx

/-- A conditional rewrite map is the identity when nothing matches. -/
theorem map_ite_id_of_no_match {α : Type} (l : List α) (p : α → Bool) (y : α)
    (h : ∀ x ∈ l, ¬ p x = true) :
    l.map (fun e => if p e then y else e) = l := by
  induction l with
  | nil => rfl
  | cons x xs ih =>
    rw [List.map_cons, if_neg (h x (by simp)), ih]
    intro z hz
    exact h z (by simp [hz])

/-- Claim C3: a pair of `markLimited` calls on the same executable leaves
the effective reset at the maximum of the two `resetsAt` arguments (from
a state with no recorded entry for it), and against any live entry a
single call never downgrades: the live window becomes the maximum of the
old and new reset times. -/
theorem C3_markLimited_never_downgrades :
    (∀ (entries : List RateLimitEntry) (now : Nat) (exe : String) (t1 t2 : Nat),
        entries.find? (fun e => e.executable == exe) = none →
        effectiveResetTime (markLimited (markLimited entries now exe t1) now exe t2) now exe
          = if now < max t1 t2 then some (max t1 t2) else none)
  ∧ (∀ (entries : List RateLimitEntry) (now : Nat) (exe : String) (t : Nat)
        (ent : RateLimitEntry),
        entries.find? (fun e => e.executable == exe) = some ent →
        now < ent.resetsAt →
        effectiveResetTime (markLimited entries now exe t) now exe
          = some (max ent.resetsAt t)) := by
  have hp1 : ∀ (exe : String) (t : Nat) (now : Nat),
      (fun e : RateLimitEntry => e.executable == exe) ⟨exe, t, now⟩ = true := by
    intro exe t now
    simp
  constructor
  · intro entries now exe t1 t2 h
    have hnomatch : ∀ x ∈ entries, ¬ (fun e : RateLimitEntry => e.executable == exe) x = true :=
      List.find?_eq_none.mp h
    have hm1 : markLimited entries now exe t1 = entries ++ [⟨exe, t1, now⟩] := by
      unfold markLimited
      rw [h]
    have hfound : (entries ++ ([⟨exe, t1, now⟩] : List RateLimitEntry)).find?
        (fun e => e.executable == exe) = some (⟨exe, t1, now⟩ : RateLimitEntry) := by
      rw [List.find?_append, h]
      simp
    rw [hm1]
    unfold markLimited
    rw [hfound]
    dsimp only
    by_cases hcond : (decide (now < t1) && decide (t2 ≤ t1)) = true
    · rw [if_pos hcond]
      rw [Bool.and_eq_true, decide_eq_true_eq, decide_eq_true_eq] at hcond
      unfold effectiveResetTime sweepExpired
      rw [List.filter_append]
      rw [List.find?_append, find?_filter_of_none _ _ _ h]
      have hq : (fun e : RateLimitEntry => decide (now < e.resetsAt)) ⟨exe, t1, now⟩ = true := by
        simp
        exact hcond.1
      simp only [List.filter_cons, List.filter_nil]
      rw [if_pos hq]
      have hmax : t1 ⊔ t2 = t1 := Nat.max_eq_left hcond.2
      simp [hmax, hcond.1]
    · rw [if_neg hcond]
      have hnot : ¬ (now < t1 ∧ t2 ≤ t1) := by
        intro hx
        exact hcond (by simp [hx.1, hx.2])
      rw [List.map_append]
      rw [map_ite_id_of_no_match _ _ _ hnomatch]
      have hone : ([⟨exe, t1, now⟩] : List RateLimitEntry).map
          (fun e => if e.executable == exe then ⟨exe, t2, now⟩ else e)
            = [⟨exe, t2, now⟩] := by
        simp
      rw [hone]
      unfold effectiveResetTime sweepExpired
      rw [List.filter_append]
      rw [List.find?_append, find?_filter_of_none _ _ _ h]
      simp only [List.filter_cons, List.filter_nil]
      by_cases hq2 : decide (now < t2) = true
      · rw [if_pos hq2]
        rw [decide_eq_true_eq] at hq2
        have hmax : t1 ⊔ t2 = t2 := by omega
        simp [hmax, hq2]
      · rw [if_neg hq2]
        rw [decide_eq_true_eq] at hq2
        have hmax : ¬ now < t1 ⊔ t2 := by omega
        rw [if_neg hmax]
        rfl
  · intro entries now exe t ent hfind hlive
    have hpent := List.find?_some hfind
    unfold markLimited
    rw [hfind]
    dsimp only
    by_cases hcond : (decide (now < ent.resetsAt) && decide (t ≤ ent.resetsAt)) = true
    · rw [if_pos hcond]
      rw [Bool.and_eq_true, decide_eq_true_eq, decide_eq_true_eq] at hcond
      unfold effectiveResetTime sweepExpired
      have hqent : (fun e : RateLimitEntry => decide (now < e.resetsAt)) ent = true := by
        simp
        exact hlive
      rw [find?_filter_of_true _ _ _ _ hfind hqent]
      have hmax : max ent.resetsAt t = ent.resetsAt := Nat.max_eq_left hcond.2
      rw [hmax]
      rfl
    · rw [if_neg hcond]
      have ht : ent.resetsAt < t := by
        by_contra hx
        push_neg at hx
        apply hcond
        rw [Bool.and_eq_true, decide_eq_true_eq, decide_eq_true_eq]
        exact ⟨hlive, hx⟩
      have hmap := find?_map_pred entries (fun e : RateLimitEntry => e.executable == exe)
        (fun e => if e.executable == exe then ⟨exe, t, now⟩ else e) ent hfind ?hf
      case hf =>
        intro x
        dsimp only
        by_cases hx : (x.executable == exe) = true
        · rw [if_pos hx, hx]
          simp
        · rw [if_neg hx]
      dsimp only at hmap
      rw [hpent] at hmap
      simp only [if_true] at hmap
      unfold effectiveResetTime sweepExpired
      have hqnew : (fun e : RateLimitEntry => decide (now < e.resetsAt))
          (⟨exe, t, now⟩ : RateLimitEntry) = true := by
        simp
        omega
      rw [find?_filter_of_true _ _ _ _ hmap hqnew]
      have hmax : max ent.resetsAt t = t := by omega
      rw [hmax]
      rfl

/-- Witness for `C3_markLimited_never_downgrades`: marking claude limited
until 30s then 120s from an empty tracker leaves the effective reset at
120s, and marking 30s against a live 120s entry does not downgrade. -/
theorem C3_markLimited_never_downgrades_witness :
    (effectiveResetTime (markLimited (markLimited [] 0 "claude" 30000) 0 "claude" 120000)
        0 "claude" = if 0 < max 30000 120000 then some (max 30000 120000) else none)
    ∧ effectiveResetTime (markLimited [⟨"claude", 120000, 0⟩] 0 "claude" 30000) 0 "claude"
        = some (max 120000 30000) :=
  ⟨C3_markLimited_never_downgrades.1 [] 0 "claude" 30000 120000 rfl,
    C3_markLimited_never_downgrades.2 [⟨"claude", 120000, 0⟩] 0 "claude" 30000
      ⟨"claude", 120000, 0⟩ (by decide) (by decide)⟩

/-- The first match of `find?` splits the list, with no match before it. -/
theorem find?_first_position {α : Type} (l : List α) (p : α → Bool) (a : α) :
    l.find? p = some a →
    ∃ pre post, l = pre ++ a :: post ∧ ∀ e ∈ pre, p e = false := by
  induction l with
  | nil =>
    intro h
    simp at h
  | cons c cs ih =>
    intro h
    by_cases hc : p c = true
    · rw [List.find?_cons_of_pos _ hc] at h
      injection h with h
      subst h
      exact ⟨[], cs, rfl, by simp⟩
    · rw [List.find?_cons_of_neg _ hc] at h
      obtain ⟨pre, post, heq, hall⟩ := ih h
      refine ⟨c :: pre, post, by rw [heq]; rfl, ?_⟩
      intro e he
      rcases List.mem_cons.mp he with rfl | he2
      · rw [Bool.not_eq_true] at hc
        exact hc
      · exact hall e he2

/-- Claim C4: `getAvailableExecutable` returns `undefined` exactly when
every chain member is limited (in particular on the empty chain), and a
returned executable is not limited and is the first such in chain order —
everything before it in the chain is limited. -/
theorem C4_getAvailableExecutable_first :
    (∀ (entries : List RateLimitEntry) (now : Nat) (chain : List String),
        (getAvailableExecutable entries now chain = none ↔
          ∀ e ∈ chain, isLimited entries now e = true))
  ∧ (∀ (entries : List RateLimitEntry) (now : Nat) (chain : List String) (x : String),
        getAvailableExecutable entries now chain = some x →
          isLimited entries now x = false ∧
          ∃ pre post, chain = pre ++ x :: post ∧ ∀ e ∈ pre, isLimited entries now e = true)
  ∧ (∀ (entries : List RateLimitEntry) (now : Nat),
        getAvailableExecutable entries now [] = none) := by
  refine ⟨?_, ?_, ?_⟩
  · intro entries now chain
    unfold getAvailableExecutable
    rw [List.find?_eq_none]
    constructor
    · intro h e he
      have h2 := h e he
      simpa using h2
    · intro h e he
      simp [h e he]
  · intro entries now chain x h
    unfold getAvailableExecutable at h
    constructor
    · have hx := List.find?_some h
      simpa using hx
    · obtain ⟨pre, post, heq, hall⟩ := find?_first_position chain _ x h
      refine ⟨pre, post, heq, ?_⟩
      intro e he
      have h2 := hall e he
      simpa using h2
  · intro entries now
    rfl

/-- Witness for `C4_getAvailableExecutable_first`: with claude limited,
the chain claude → gpt yields gpt, which is unlimited and preceded only
by limited entries; an all-limited chain yields `undefined`. -/
theorem C4_getAvailableExecutable_first_witness :
    (getAvailableExecutable [⟨"claude", 60000, 0⟩] 0 ["claude", "gpt"] = none ↔
      ∀ e ∈ ["claude", "gpt"], isLimited [⟨"claude", 60000, 0⟩] 0 e = true)
    ∧ (isLimited [⟨"claude", 60000, 0⟩] 0 "gpt" = false
      ∧ ∃ pre post, ["claude", "gpt"] = pre ++ "gpt" :: post
          ∧ ∀ e ∈ pre, isLimited [⟨"claude", 60000, 0⟩] 0 e = true)
    ∧ getAvailableExecutable [⟨"claude", 60000, 0⟩] 0 [] = none :=
  ⟨C4_getAvailableExecutable_first.1 [⟨"claude", 60000, 0⟩] 0 ["claude", "gpt"],
    C4_getAvailableExecutable_first.2.1 [⟨"claude", 60000, 0⟩] 0 ["claude", "gpt"] "gpt"
      (by decide),
    C4_getAvailableExecutable_first.2.2 [⟨"claude", 60000, 0⟩] 0⟩

/-- Claim C6: when all configured executables are rate-limited, the
session start/resume route rejects with HTTP 429, a `RATE_LIMITED` error
body carrying `retryAfter` (equal to the `Retry-After` header) and
`soonestReset`; the header is exactly 60 when no reset time is known and
otherwise lies between 1 second and the remaining time until
`soonestReset` (clamped below at one second); when not all executables
are limited the session proceeds normally. -/
theorem C6_rate_limit_guard_429 (allLimited : Bool) (soonestReset : Option Nat) (now : Nat) :
    (allLimited = true →
      ∃ resp, startSessionRoute allLimited soonestReset now = .error resp
        ∧ resp.status = 429
        ∧ resp.body.code = "RATE_LIMITED"
        ∧ resp.body.retryAfter = resp.retryAfterHeader
        ∧ resp.body.soonestReset = soonestReset
        ∧ (soonestReset = none → resp.retryAfterHeader = 60)
        ∧ (∀ t, soonestReset = some t → 1 ≤ resp.retryAfterHeader
            ∧ (resp.retryAfterHeader = 1 ∨ now + 1000 * resp.retryAfterHeader ≤ t)))
    ∧ (allLimited = false →
      startSessionRoute allLimited soonestReset now = .ok "session-started") := by
  constructor
  · intro h
    subst h
    refine ⟨⟨429, computeRetryAfterSecs soonestReset now,
      ⟨"RATE_LIMITED", "All configured executables are currently rate-limited",
        computeRetryAfterSecs soonestReset now, soonestReset⟩⟩,
      rfl, rfl, rfl, rfl, rfl, ?_, ?_⟩
    · intro hn
      subst hn
      rfl
    · intro t htt
      subst htt
      constructor
      · exact Nat.le_max_left 1 ((t - now) / 1000)
      · show max 1 ((t - now) / 1000) = 1 ∨ now + 1000 * max 1 ((t - now) / 1000) ≤ t
        rcases Nat.eq_zero_or_pos ((t - now) / 1000) with hz | hpos
        · left
          rw [hz]
          rfl
        · right
          have hmax : max 1 ((t - now) / 1000) = (t - now) / 1000 := Nat.max_eq_right hpos
          rw [hmax]
          have hdm : (t - now) / 1000 * 1000 ≤ t - now := Nat.div_mul_le_self (t - now) 1000
          have hlow : 1000 ≤ t - now := by
            by_contra hx
            push_neg at hx
            have : (t - now) / 1000 = 0 := Nat.div_eq_of_lt hx
            omega
          omega
  · intro h
    subst h
    rfl

/-- Witness for `C6_rate_limit_guard_429`, the spec scenario: all
executables limited with a reset 30 seconds away yields a 429 whose
Retry-After is between 1 and 30; an unlimited pool proceeds. -/
theorem C6_rate_limit_guard_429_witness :
    (∃ resp, startSessionRoute true (some 30000) 0 = .error resp
      ∧ resp.status = 429
      ∧ resp.body.code = "RATE_LIMITED"
      ∧ resp.body.retryAfter = resp.retryAfterHeader
      ∧ resp.body.soonestReset = some 30000
      ∧ ((some 30000 : Option Nat) = none → resp.retryAfterHeader = 60)
      ∧ (∀ t, (some 30000 : Option Nat) = some t → 1 ≤ resp.retryAfterHeader
          ∧ (resp.retryAfterHeader = 1 ∨ 0 + 1000 * resp.retryAfterHeader ≤ t)))
    ∧ startSessionRoute false (some 30000) 0 = .ok "session-started" :=
  ⟨(C6_rate_limit_guard_429 true (some 30000) 0).1 rfl,
    (C6_rate_limit_guard_429 false (some 30000) 0).2 rfl⟩

/-- Membership in an orphan snapshot. -/
theorem mem_orphanSnapshot (s : DaemonState) (i : Nat) :
    i ∈ orphanSnapshot s ↔ i < s.numTasks ∧ s.orphaned i = true := by
  unfold orphanSnapshot
  simp [List.mem_filter, List.mem_range]

/-- Orphan snapshots list each task at most once. -/
theorem orphanSnapshot_nodup (s : DaemonState) : (orphanSnapshot s).Nodup :=
  (List.nodup_range _).filter _

/-- The invariant holds right after `start()` returned. -/
theorem daemonInv_init (n : Nat) (orphan : Nat → Bool) :
    daemonInv n orphan (initDaemon n orphan) := by
  refine ⟨rfl, ?_, ⟨rfl, ?_⟩, trivial⟩
  · intro i _
    exact ⟨rfl, rfl⟩
  · intro i _
    exact ⟨rfl, rfl⟩

/-- One step of the startup-recovery task preserves the invariant. -/
theorem daemonInv_stepRecovery (n : Nat) (orphan : Nat → Bool) (s : DaemonState)
    (h : daemonInv n orphan s) : daemonInv n orphan (stepRecovery s) := by
  obtain ⟨hn, hout, hrec, hpoll⟩ := h
  unfold stepRecovery
  rcases hr : s.recovery with _ | pending | _
  · -- notStarted: snapshot and move to applying
    rw [hr] at hrec
    obtain ⟨hlatch, hall⟩ := hrec
    refine ⟨hn, hout, ⟨hlatch, orphanSnapshot_nodup s, ?_, ?_⟩, ?_⟩
    · intro i hi
      obtain ⟨hin, horph⟩ := (mem_orphanSnapshot s i).mp hi
      have hi2 : i < n := hn ▸ hin
      obtain ⟨ho, he⟩ := hall i hi2
      exact ⟨hi2, by rw [← ho]; exact horph, horph, he⟩
    · intro i hi hni
      obtain ⟨ho, he⟩ := hall i hi
      have horph : s.orphaned i = false := by
        by_contra hx
        rw [Bool.not_eq_false] at hx
        exact hni ((mem_orphanSnapshot s i).mpr ⟨hn ▸ hi, hx⟩)
      refine ⟨horph, ?_⟩
      rw [he]
      rw [ho] at horph
      rw [horph]
      simp
    · rcases hp : s.poll with _ | pending2 | _
      · trivial
      · rw [hp] at hpoll
        rw [hr] at hpoll
        exact absurd hpoll.1 (by simp)
      · rw [hp] at hpoll
        rw [hr] at hpoll
        exact absurd hpoll (by simp)
  · rw [hr] at hrec
    obtain ⟨hlatch, hnodup, hpend, hnotpend⟩ := hrec
    cases pending with
    | nil =>
      -- finish the pass and resolve the latch
      refine ⟨hn, hout, ⟨rfl, ?_⟩, ?_⟩
      · intro i hi
        exact hnotpend i hi (by simp)
      · rcases hp : s.poll with _ | pending2 | _
        · trivial
        · rw [hp, hr] at hpoll
          exact absurd hpoll.1 (by simp)
        · rfl
    | cons i rest =>
      obtain ⟨hin, horphi, hoi, hei⟩ := hpend i (by simp)
      have hinotrest : i ∉ rest := (List.nodup_cons.mp hnodup).1
      have hrestnodup : rest.Nodup := (List.nodup_cons.mp hnodup).2
      refine ⟨hn, ?_, ⟨hlatch, hrestnodup, ?_, ?_⟩, ?_⟩
      · intro j hj
        have hji : j ≠ i := by
          intro hx
          subst hx
          omega
        obtain ⟨he, ho⟩ := hout j hj
        unfold applyRecovery
        exact ⟨by simp [hji, he], by simp [hji, ho]⟩
      · intro j hj
        have hji : j ≠ i := by
          intro hx
          subst hx
          exact hinotrest hj
        obtain ⟨hjn, hjo, hjorph, hje⟩ := hpend j (by simp [hj])
        unfold applyRecovery
        refine ⟨hjn, hjo, by simp [hji, hjorph], by simp [hji, hje]⟩
      · intro j hj hjrest
        by_cases hji : j = i
        · subst hji
          unfold applyRecovery
          refine ⟨by simp, ?_⟩
          simp [hei, horphi]
        · have hjpend : j ∉ i :: rest := by
            intro hx
            rcases List.mem_cons.mp hx with hx2 | hx2
            · exact hji hx2
            · exact hjrest hx2
          obtain ⟨hjo, hje⟩ := hnotpend j hj hjpend
          unfold applyRecovery
          exact ⟨by simp [hji, hjo], by simp [hji, hje]⟩
      · have hpA : s.poll = PollSt.awaitingLatch := by
          rcases hp : s.poll with _ | pending2 | _
          · rfl
          · rw [hp, hr] at hpoll
            exact absurd hpoll.1 (by simp)
          · rw [hp, hr] at hpoll
            exact absurd hpoll (by simp)
        simp [applyRecovery, hpA]
  · exact ⟨hn, hout, hrec, hpoll⟩

/-- One step of the first poll cycle preserves the invariant: in
particular the cycle cannot start its own pass before the latch
resolves, and when it does start, the startup recovery pass has already
emptied the orphan set. -/
theorem daemonInv_stepPoll (n : Nat) (orphan : Nat → Bool) (s : DaemonState)
    (h : daemonInv n orphan s) : daemonInv n orphan (stepPoll s) := by
  obtain ⟨hn, hout, hrec, hpoll⟩ := h
  unfold stepPoll
  rcases hp : s.poll with _ | pending | _
  · by_cases hl : s.latchResolved = true
    · rw [if_pos hl]
      rcases hr : s.recovery with _ | pending2 | _
      · rw [hr] at hrec
        exact absurd hl (by rw [hrec.1]; simp)
      · rw [hr] at hrec
        exact absurd hl (by rw [hrec.1]; simp)
      · rw [hr] at hrec
        obtain ⟨hlatch, hall⟩ := hrec
        refine ⟨hn, hout, ⟨hlatch, hall⟩, rfl, ?_⟩
        unfold orphanSnapshot
        rw [List.filter_eq_nil_iff]
        intro a ha
        have han : a < n := hn ▸ List.mem_range.mp ha
        simp [(hall a han).1]
    · rw [if_neg hl]
      refine ⟨hn, hout, hrec, ?_⟩
      rw [hp]
      trivial
  · rw [hp] at hpoll
    obtain ⟨hrecfin, hpendnil⟩ := hpoll
    subst hpendnil
    rw [hrecfin] at hrec
    exact ⟨hn, hout, by rw [hrecfin]; exact hrec, hrecfin⟩
  · rw [hp] at hpoll
    refine ⟨hn, hout, hrec, ?_⟩
    rw [hp]
    exact hpoll

/-- Either scheduler choice preserves the invariant. -/
theorem daemonInv_stepDaemon (n : Nat) (orphan : Nat → Bool) (s : DaemonState)
    (c : Bool) (h : daemonInv n orphan s) : daemonInv n orphan (stepDaemon s c) := by
  cases c
  · simpa [stepDaemon] using daemonInv_stepPoll n orphan s h
  · simpa [stepDaemon] using daemonInv_stepRecovery n orphan s h

/-- The invariant is preserved by every interleaving schedule. -/
theorem daemonInv_runDaemon (n : Nat) (orphan : Nat → Bool) (sched : List Bool) :
    ∀ s, daemonInv n orphan s → daemonInv n orphan (runDaemon s sched) := by
  induction sched with
  | nil => exact fun s h => h
  | cons c cs ih => exact fun s h => ih _ (daemonInv_stepDaemon n orphan s c h)

/-- Under the invariant no task ever has its recovery side effects
applied more than once. -/
theorem daemonInv_effects_le (n : Nat) (orphan : Nat → Bool) (s : DaemonState)
    (h : daemonInv n orphan s) (i : Nat) : s.effects i ≤ 1 := by
  obtain ⟨hn, hout, hrec, _⟩ := h
  by_cases hi : i < n
  · rcases hr : s.recovery with _ | pending | _
    · rw [hr] at hrec
      rw [(hrec.2 i hi).2]
      exact Nat.zero_le 1
    · rw [hr] at hrec
      obtain ⟨_, _, hpend, hnot⟩ := hrec
      by_cases hmem : i ∈ pending
      · rw [(hpend i hmem).2.2.2]
        exact Nat.zero_le 1
      · rw [(hnot i hi hmem).2]
        split
        · exact Nat.le_refl 1
        · exact Nat.zero_le 1
    · rw [hr] at hrec
      rw [(hrec.2 i hi).2]
      split
      · exact Nat.le_refl 1
      · exact Nat.zero_le 1
  · rw [(hout i (Nat.le_of_not_lt hi)).1]
    exact Nat.zero_le 1

/-- Under the invariant, once the poll cycle has finished, every
in-range orphaned task saw its side effects exactly once and nothing
else was touched. -/
theorem daemonInv_poll_finished (n : Nat) (orphan : Nat → Bool) (s : DaemonState)
    (h : daemonInv n orphan s) (hp : s.poll = PollSt.finished) (i : Nat) :
    s.effects i = if orphan i && decide (i < n) then 1 else 0 := by
  obtain ⟨hn, hout, hrec, hpoll⟩ := h
  rw [hp] at hpoll
  rw [hpoll] at hrec
  by_cases hi : i < n
  · rw [(hrec.2 i hi).2]
    simp [hi]
  · rw [(hout i (Nat.le_of_not_lt hi)).1]
    simp [hi]

/-- C9: in the startup-race model of the dispatch daemon — a poll-cycle
trigger issued concurrently with start(), with the first runPollCycle
parked on a promise-based completion latch — every interleaving applies
each orphaned task\x27s recovery side effects at most once, and whenever
the first poll cycle has completed, each orphaned task in range saw its
side effects exactly once and no other task was touched: the orphan set
is recovered by exactly one pass. -/
theorem C9_startup_latch_exactly_once :
    (∀ (n : Nat) (orphan : Nat → Bool) (sched : List Bool) (i : Nat),
        (runDaemon (initDaemon n orphan) sched).effects i ≤ 1)
    ∧ (∀ (n : Nat) (orphan : Nat → Bool) (sched : List Bool),
        (runDaemon (initDaemon n orphan) sched).poll = PollSt.finished →
        ∀ i : Nat, (runDaemon (initDaemon n orphan) sched).effects i
          = if orphan i && decide (i < n) then 1 else 0) := by
  constructor
  · intro n orphan sched i
    exact daemonInv_effects_le n orphan _
      (daemonInv_runDaemon n orphan sched _ (daemonInv_init n orphan)) i
  · intro n orphan sched hp i
    exact daemonInv_poll_finished n orphan _
      (daemonInv_runDaemon n orphan sched _ (daemonInv_init n orphan)) hp i

/-- Witness for C9 at a concrete race: two tasks, task 0 orphaned, the
recovery pass and the poll cycle interleaved; the poll cycle finishes
and the side effects land exactly once on task 0 and never on task 1. -/
theorem C9_startup_latch_exactly_once_witness :
    (runDaemon (initDaemon 2 (fun i => i == 0)) [true, true, true, false, false]).poll
        = PollSt.finished
    ∧ (runDaemon (initDaemon 2 (fun i => i == 0)) [true, true, true, false, false]).effects 0 ≤ 1
    ∧ ((runDaemon (initDaemon 2 (fun i => i == 0)) [true, true, true, false, false]).effects 0
        = if (fun i => i == 0) 0 && decide (0 < 2) then 1 else 0)
    ∧ ((runDaemon (initDaemon 2 (fun i => i == 0)) [true, true, true, false, false]).effects 1
        = if (fun i => i == 0) 1 && decide (1 < 2) then 1 else 0) :=
  ⟨rfl,
   C9_startup_latch_exactly_once.1 2 (fun i => i == 0) [true, true, true, false, false] 0,
   C9_startup_latch_exactly_once.2 2 (fun i => i == 0) [true, true, true, false, false] rfl 0,
   C9_startup_latch_exactly_once.2 2 (fun i => i == 0) [true, true, true, false, false] rfl 1⟩

end Stoneforge
